import Mathlib

/-!
Verification of the multi-dialect doc-comment extraction engine (`thedoc`).

This file shallowly embeds the three dialect parsers of the repository —
`DotNetParser` (XML doc comments), `KotlinParser` (KDoc) and `SwiftParser`
(slash doc comments) — as executable Lean functions over `List Char` /
`List String`, and proves or refutes the frozen behavioural claims about
them.

Conventions of the embedding:
* Python strings are `List Char` (wrapped into `String` at entry points);
  Python `str.split('\n')` / `str.strip()` etc. are embedded directly.
* Each regular expression used by the source is embedded as a hand-written
  matcher that reproduces Python `re` semantics for that pattern
  (leftmost search, greedy/lazy quantifiers, backtracking where it can
  change the outcome — this matters for `class\s+(\w+)(?!\s*<)`).
* Scanning loops are written with an explicit fuel argument so that all
  definitions are structurally recursive and reduce definitionally; the
  wrappers supply fuel that strictly exceeds the number of loop steps,
  so the fuel never runs out.
* `xml.etree.ElementTree.fromstring` is modelled by a small executable
  XML parser (`etFromstring`) covering the fragment language the doc
  blocks use: elements, attributes, character data and the five
  predefined entities; DTDs, processing instructions, CDATA and comments
  are treated as parse failures.
-/

namespace TheDoc

/-! ## Basic Python string helpers -/

/-- Python whitespace characters (`str.strip`, regex `\s`). -/
def pyIsWs (c : Char) : Bool :=
  c = ' ' || c = '\t' || c = '\n' || c = '\r' || c = '\x0b' || c = '\x0c'

/-- Regex word character `\w` (ASCII, as used by all anchors in the repo). -/
def isWordChar (c : Char) : Bool :=
  ('a' ≤ c && c ≤ 'z') || ('A' ≤ c && c ≤ 'Z') || ('0' ≤ c && c ≤ '9') || c = '_'

/-- Python `str.lstrip()`. -/
def lstripChars (cs : List Char) : List Char := cs.dropWhile pyIsWs

/-- Python `str.rstrip()`. -/
def rstripChars (cs : List Char) : List Char := (cs.reverse.dropWhile pyIsWs).reverse

/-- Python `str.strip()`. -/
def stripChars (cs : List Char) : List Char := rstripChars (lstripChars cs)

/-- Boolean prefix test (Python `str.startswith`). -/
def startsWithL : List Char → List Char → Bool
  | [], _ => true
  | _ :: _, [] => false
  | p :: ps, c :: cs => p == c && startsWithL ps cs

/-- Substring occurrence test (Python `in`). -/
def containsSub (needle : List Char) : List Char → Bool
  | [] => startsWithL needle []
  | c :: cs => startsWithL needle (c :: cs) || containsSub needle cs

/-- Split at the first occurrence of `needle`, returning the part before it
and the part after it (the lazy `(.*?)needle` idiom). -/
def splitFirstSub (needle : List Char) : List Char → Option (List Char × List Char)
  | [] => if startsWithL needle [] then some ([], []) else none
  | c :: cs =>
    if startsWithL needle (c :: cs) then some ([], (c :: cs).drop needle.length)
    else
      match splitFirstSub needle cs with
      | some (b, a) => some (c :: b, a)
      | none => none

/-- Python `str.split(sep)` for a one-character separator. -/
def pySplitChar (sep : Char) : List Char → List (List Char)
  | [] => [[]]
  | c :: cs =>
    if c = sep then [] :: pySplitChar sep cs
    else
      match pySplitChar sep cs with
      | [] => [[c]]
      | h :: t => (c :: h) :: t

/-- Join pieces with a newline (Python `'\n'.join`). -/
def joinNL (ls : List (List Char)) : List Char := List.intercalate ['\n'] ls

/-! ## KotlinParser (kotlin_parser.py) -/

/-- Embeds `re.sub(r'^\s*\*\s*', '', text)` (no MULTILINE): if the first
non-whitespace character is `*`, remove the leading whitespace, the `*`
and the whitespace run following it; otherwise the text is unchanged. -/
def kotlinSubLeadStar (cs : List Char) : List Char :=
  match cs.dropWhile pyIsWs with
  | '*' :: rest => rest.dropWhile pyIsWs
  | _ => cs

/-- Embeds `re.sub(r'\s*\*\s*$', '', text)` (no MULTILINE): the leftmost
match removes the last `*` when only whitespace follows it, together with
the whitespace run before it. -/
def kotlinSubTrailStar (cs : List Char) : List Char :=
  let r := rstripChars cs
  match r.getLast? with
  | some '*' => rstripChars r.dropLast
  | _ => cs

/-- Embeds `KotlinParser._clean_description`: strip the decorating
asterisks, then keep the stripped non-blank lines joined by newlines. -/
def kotlinClean (cs : List Char) : List Char :=
  let t := kotlinSubTrailStar (kotlinSubLeadStar cs)
  let lines := pySplitChar '\n' t
  joinNL (((lines.map kotlinSubLeadStar).filter
    (fun l => !(stripChars l).isEmpty)).map stripChars)

/-- One attempt to match `@TAG\s+(\w+)\s+(.*?)(?=@|\Z)` (DOTALL) at the head
of `cs` (the header literal includes the `@`).  Returns name, captured text
and the rest of the input where scanning resumes (the lazy group stops
right before the next `@` or at the end). -/
def matchNamedTagAt (header : List Char) (cs : List Char) :
    Option (List Char × List Char × List Char) :=
  if startsWithL header cs then
    let r1 := cs.drop header.length
    if (r1.takeWhile pyIsWs).isEmpty then none else
    let r2 := r1.dropWhile pyIsWs
    let name := r2.takeWhile isWordChar
    if name.isEmpty then none else
    let r3 := r2.dropWhile isWordChar
    if (r3.takeWhile pyIsWs).isEmpty then none else
    let r4 := r3.dropWhile pyIsWs
    some (name, r4.takeWhile (fun c => c ≠ '@'), r4.dropWhile (fun c => c ≠ '@'))
  else none

/-- One attempt to match `@TAG\s+(.*?)(?=@|\Z)` (DOTALL) at the head of
`cs`. -/
def matchTextTagAt (header : List Char) (cs : List Char) :
    Option (List Char × List Char) :=
  if startsWithL header cs then
    let r1 := cs.drop header.length
    if (r1.takeWhile pyIsWs).isEmpty then none else
    let r2 := r1.dropWhile pyIsWs
    some (r2.takeWhile (fun c => c ≠ '@'), r2.dropWhile (fun c => c ≠ '@'))
  else none

/-- `re.finditer` for a named tag pattern: scan left to right, emit each
match and resume after its end. -/
def findNamedTag (header : List Char) : Nat → List Char → List (List Char × List Char)
  | 0, _ => []
  | _ + 1, [] => []
  | fuel + 1, c :: cs =>
    match matchNamedTagAt header (c :: cs) with
    | some (n, t, rest) => (n, t) :: findNamedTag header fuel rest
    | none => findNamedTag header fuel cs

/-- `re.finditer` for a text-only tag pattern. -/
def findTextTag (header : List Char) : Nat → List Char → List (List Char)
  | 0, _ => []
  | _ + 1, [] => []
  | fuel + 1, c :: cs =>
    match matchTextTagAt header (c :: cs) with
    | some (t, rest) => t :: findTextTag header fuel rest
    | none => findTextTag header fuel cs

/-- Raw (pre-clean) captures of `@param` tags, as `(name, text)` pairs. -/
def kotlinFindParamsL (kdoc : List Char) : List (List Char × List Char) :=
  findNamedTag ['@', 'p', 'a', 'r', 'a', 'm'] (kdoc.length + 1) kdoc

/-- Raw captures of `@throws` tags. -/
def kotlinFindThrowsL (kdoc : List Char) : List (List Char × List Char) :=
  findNamedTag ['@', 't', 'h', 'r', 'o', 'w', 's'] (kdoc.length + 1) kdoc

/-- Raw captures of `@property` tags. -/
def kotlinFindPropsL (kdoc : List Char) : List (List Char × List Char) :=
  findNamedTag ['@', 'p', 'r', 'o', 'p', 'e', 'r', 't', 'y'] (kdoc.length + 1) kdoc

/-- Raw captures of `@return` tags. -/
def kotlinFindReturnL (kdoc : List Char) : List (List Char) :=
  findTextTag ['@', 'r', 'e', 't', 'u', 'r', 'n'] (kdoc.length + 1) kdoc

/-- Raw captures of `@see` tags. -/
def kotlinFindSeeL (kdoc : List Char) : List (List Char) :=
  findTextTag ['@', 's', 'e', 'e'] (kdoc.length + 1) kdoc

/-- Raw captures of `@sample` tags. -/
def kotlinFindSampleL (kdoc : List Char) : List (List Char) :=
  findTextTag ['@', 's', 'a', 'm', 'p', 'l', 'e'] (kdoc.length + 1) kdoc

/-- Generic `re.search`: try the single-position matcher at every position,
left to right, including the empty suffix at the end of the string. -/
def searchWith {α : Type} (m : List Char → Option α) : Nat → List Char → Option α
  | 0, _ => none
  | _ + 1, [] => m []
  | fuel + 1, c :: cs =>
    match m (c :: cs) with
    | some r => some r
    | none => searchWith m fuel cs

/-- Lookahead `\s*<`: after skipping whitespace the next character is `<`. -/
def lookaheadWsLt (cs : List Char) : Bool :=
  match cs.dropWhile pyIsWs with
  | '<' :: _ => true
  | _ => false

/-- One attempt to match `class\s+(\w+)(?!\s*<)` at the head of `cs`,
including the backtracking behaviour of the negative lookahead: when the
full word run is followed by `\s*<`, the engine retries with the word run
shortened by one character — the lookahead then always succeeds, so a
generic class still matches, with a truncated name. -/
def matchClassNoGenericAt (cs : List Char) : Option (List Char) :=
  if startsWithL ['c', 'l', 'a', 's', 's'] cs then
    let r1 := cs.drop 5
    if (r1.takeWhile pyIsWs).isEmpty then none else
    let r2 := r1.dropWhile pyIsWs
    let w := r2.takeWhile isWordChar
    if w.isEmpty then none else
    let r3 := r2.dropWhile isWordChar
    if lookaheadWsLt r3 then
      if 2 ≤ w.length then some w.dropLast else none
    else some w
  else none

/-- One attempt to match `fun\s+(\w+)` at the head of `cs`. -/
def matchFunAt (cs : List Char) : Option (List Char) :=
  if startsWithL ['f', 'u', 'n'] cs then
    let r1 := cs.drop 3
    if (r1.takeWhile pyIsWs).isEmpty then none else
    let r2 := r1.dropWhile pyIsWs
    let w := r2.takeWhile isWordChar
    if w.isEmpty then none else some w
  else none

/-- One attempt to match `(var|val)\s+(\w+)` at the head of `cs`; the name
is capture group 2. -/
def matchVarValAt (cs : List Char) : Option (List Char) :=
  if startsWithL ['v', 'a', 'r'] cs || startsWithL ['v', 'a', 'l'] cs then
    let r1 := cs.drop 3
    if (r1.takeWhile pyIsWs).isEmpty then none else
    let r2 := r1.dropWhile pyIsWs
    let w := r2.takeWhile isWordChar
    if w.isEmpty then none else some w
  else none

/-- One attempt to match `enum\s+class\s+(\w+)` at the head of `cs`. -/
def matchEnumClassAt (cs : List Char) : Option (List Char) :=
  if startsWithL ['e', 'n', 'u', 'm'] cs then
    let r1 := cs.drop 4
    if (r1.takeWhile pyIsWs).isEmpty then none else
    let r2 := r1.dropWhile pyIsWs
    if startsWithL ['c', 'l', 'a', 's', 's'] r2 then
      let r3 := r2.drop 5
      if (r3.takeWhile pyIsWs).isEmpty then none else
      let r4 := r3.dropWhile pyIsWs
      let w := r4.takeWhile isWordChar
      if w.isEmpty then none else some w
    else none
  else none

/-- One attempt to match `class\s+(\w+)\s*<\s*(\w+)\s*>` at the head of
`cs` (the generic-class pattern); the name is capture group 1. -/
def matchGenericKtAt (cs : List Char) : Option (List Char) :=
  if startsWithL ['c', 'l', 'a', 's', 's'] cs then
    let r1 := cs.drop 5
    if (r1.takeWhile pyIsWs).isEmpty then none else
    let r2 := r1.dropWhile pyIsWs
    let w := r2.takeWhile isWordChar
    if w.isEmpty then none else
    let r3 := (r2.dropWhile isWordChar).dropWhile pyIsWs
    match r3 with
    | '<' :: r4 =>
      let r5 := r4.dropWhile pyIsWs
      let g := r5.takeWhile isWordChar
      if g.isEmpty then none else
      match (r5.dropWhile isWordChar).dropWhile pyIsWs with
      | '>' :: _ => some w
      | _ => none
    | _ => none
  else none

/-- Embeds `KotlinParser._detect_code_element`: the `code_patterns` dict is
iterated in insertion order — class, function, property, enum, type — and
the first pattern whose `re.search` succeeds wins. -/
def kotlinDetect (codeLine : List Char) : Option (String × String) :=
  let fuel := codeLine.length + 1
  match searchWith matchClassNoGenericAt fuel codeLine with
  | some n => some ("class", String.mk n)
  | none =>
  match searchWith matchFunAt fuel codeLine with
  | some n => some ("function", String.mk n)
  | none =>
  match searchWith matchVarValAt fuel codeLine with
  | some n => some ("property", String.mk n)
  | none =>
  match searchWith matchEnumClassAt fuel codeLine with
  | some n => some ("enum", String.mk n)
  | none =>
  match searchWith matchGenericKtAt fuel codeLine with
  | some n => some ("type", String.mk n)
  | none => none

/-- One parsed KDoc block (the `doc_block` dict of `KotlinParser`). -/
structure KEntry where
  name : String := ""
  description : String
  parameters : List (String × String)
  returns : List String
  throws : List (String × String)
  properties : List (String × String)
  see_also : List String
  samples : List String
deriving Repr, DecidableEq

/-- The per-file documentation dict of `KotlinParser.parse_file`. -/
structure KotlinDocs where
  classes : List KEntry := []
  functions : List KEntry := []
  properties : List KEntry := []
  enums : List KEntry := []
  types : List KEntry := []
deriving Repr, DecidableEq

/-- Clean both components of a named-tag capture the way `_parse_tag`
does (the name is used verbatim, the text is `_clean_description`ed). -/
def kotlinNamedEntry (p : List Char × List Char) : String × String :=
  (String.mk p.1, String.mk (kotlinClean p.2))

/-- Embeds the body of the `parse_file` loop for one `(kdoc, code line)`
match: build the `doc_block`, classify the code line, and return the
bucket name and entry (or `none` when nothing is detected). -/
def kotlinStep (rawKdoc codeLine : List Char) : Option (String × KEntry) :=
  let kdoc := stripChars rawKdoc
  let entry : KEntry :=
    { description := String.mk (kotlinClean (stripChars ((pySplitChar '@' kdoc).headD [])))
      parameters := (kotlinFindParamsL kdoc).map kotlinNamedEntry
      returns := (kotlinFindReturnL kdoc).map (fun t => String.mk (kotlinClean t))
      throws := (kotlinFindThrowsL kdoc).map kotlinNamedEntry
      properties := (kotlinFindPropsL kdoc).map kotlinNamedEntry
      see_also := (kotlinFindSeeL kdoc).map (fun t => String.mk (kotlinClean t))
      samples := (kotlinFindSampleL kdoc).map (fun t => String.mk (kotlinClean t)) }
  match kotlinDetect codeLine with
  | some (et, n) =>
    let bucket :=
      if et = "class" then "classes"
      else if et = "function" then "functions"
      else if et = "property" then "properties"
      else if et = "enum" then "enums"
      else "types"
    some (bucket, { entry with name := n })
  | none => none

/-- Append an entry into the bucket named `k` (the `plural_map` lookup
followed by `documentation[plural_type].append`). -/
def kotlinAppend (d : KotlinDocs) (k : String) (e : KEntry) : KotlinDocs :=
  if k = "classes" then { d with classes := d.classes ++ [e] }
  else if k = "functions" then { d with functions := d.functions ++ [e] }
  else if k = "properties" then { d with properties := d.properties ++ [e] }
  else if k = "enums" then { d with enums := d.enums ++ [e] }
  else if k = "types" then { d with types := d.types ++ [e] }
  else d

/-- Embeds `kdoc_pattern.finditer(content)` for
`/\*\*(.*?)\*/\s*([^\n]*)` (DOTALL): find each `/**`, take the lazy body
up to the first `*/`, skip whitespace (including newlines) and capture up
to the end of that line; scanning resumes right after the captured line. -/
def kotlinScan : Nat → List Char → List (List Char × List Char)
  | 0, _ => []
  | _ + 1, [] => []
  | fuel + 1, c :: cs =>
    if startsWithL ['/', '*', '*'] (c :: cs) then
      match splitFirstSub ['*', '/'] ((c :: cs).drop 3) with
      | some (kdoc, rest) =>
        let rest2 := rest.dropWhile pyIsWs
        (kdoc, rest2.takeWhile (fun x => x ≠ '\n')) ::
          kotlinScan fuel (rest2.dropWhile (fun x => x ≠ '\n'))
      | none => []
    else kotlinScan fuel cs

/-- Embeds `KotlinParser.parse_file` on file content. -/
def kotlinParseFile (content : String) : KotlinDocs :=
  let ms := kotlinScan (content.data.length + 1) content.data
  ms.foldl
    (fun d m =>
      match kotlinStep m.1 m.2 with
      | some (b, e) => kotlinAppend d b e
      | none => d)
    {}

/-! ## A small XML model (xml.etree.ElementTree.fromstring)

`DotNetParser` hands each doc block to `ET.fromstring`.  We model the
resulting tree by `XElem` — tag, attributes, character data before the
first child, children — and `etFromstring` parses the fragment language
the doc blocks use (elements, attributes, text, the five predefined
entities).  Tail text after a child is consumed but discarded, since the
source never reads `.tail`.  DTDs, comments, processing instructions and
CDATA sections are treated as parse failures. -/

inductive XElem where
  | mk (tag : String) (attrs : List (String × String)) (text : Option String)
      (children : List XElem)
deriving Repr

/-- Tag name of an element. -/
def XElem.tag : XElem → String
  | .mk t _ _ _ => t

/-- Attribute list of an element. -/
def XElem.attrs : XElem → List (String × String)
  | .mk _ a _ _ => a

/-- Character data before the first child (`elem.text`; `none` when there
is none, matching Python `None`). -/
def XElem.text : XElem → Option String
  | .mk _ _ t _ => t

/-- Child elements in document order. -/
def XElem.children : XElem → List XElem
  | .mk _ _ _ c => c

/-- XML name start characters (ASCII subset). -/
def xmlNameStart (c : Char) : Bool :=
  ('a' ≤ c && c ≤ 'z') || ('A' ≤ c && c ≤ 'Z') || c = '_' || c = ':'

/-- XML name characters (ASCII subset). -/
def xmlNameChar (c : Char) : Bool :=
  isWordChar c || c = '-' || c = '.' || c = ':'

/-- A single-quote character, written via its code point. -/
def squote : Char := Char.ofNat 39

/-- The five predefined XML entities. -/
def entityChar (nm : List Char) : Option Char :=
  if nm = ['a', 'm', 'p'] then some '&'
  else if nm = ['l', 't'] then some '<'
  else if nm = ['g', 't'] then some '>'
  else if nm = ['q', 'u', 'o', 't'] then some '"'
  else if nm = ['a', 'p', 'o', 's'] then some squote
  else none

/-- Decode character data until a stop character (exclusive), resolving
entity references; an undefined or unterminated entity is a parse error,
as in expat. -/
def decodeUntil (stop : Char → Bool) : Nat → List Char → Option (List Char × List Char)
  | 0, _ => none
  | _ + 1, [] => some ([], [])
  | fuel + 1, c :: cs =>
    if stop c then some ([], c :: cs)
    else if c = '&' then
      let nm := cs.takeWhile (fun x => x ≠ ';')
      match cs.dropWhile (fun x => x ≠ ';') with
      | ';' :: rest =>
        match entityChar nm with
        | some ch => (decodeUntil stop fuel rest).map (fun p => (ch :: p.1, p.2))
        | none => none
      | _ => none
    else (decodeUntil stop fuel cs).map (fun p => (c :: p.1, p.2))

mutual

/-- Parse one element starting at `<`. -/
def parseElem : Nat → List Char → Option (XElem × List Char)
  | 0, _ => none
  | fuel + 1, cs =>
    match cs with
    | '<' :: r1 =>
      match r1 with
      | [] => none
      | c :: _ =>
        if xmlNameStart c then
          let nm := r1.takeWhile xmlNameChar
          let r2 := r1.dropWhile xmlNameChar
          match parseAttrsAux fuel r2 with
          | some (attrs, r3) =>
            match r3 with
            | '/' :: '>' :: r4 => some (.mk (String.mk nm) attrs none [], r4)
            | '>' :: r4 =>
              match decodeUntil (fun x => x = '<') fuel r4 with
              | some (txt, r5) =>
                match parseChildren fuel (String.mk nm) r5 with
                | some (kids, r6) =>
                  some (.mk (String.mk nm) attrs
                    (if txt.isEmpty then none else some (String.mk txt)) kids, r6)
                | none => none
              | none => none
            | _ => none
          | none => none
        else none
    | _ => none

/-- Parse the attribute list after a tag name; attributes must be
whitespace-separated, values quoted with `"` or `'`. -/
def parseAttrsAux : Nat → List Char → Option (List (String × String) × List Char)
  | 0, _ => none
  | fuel + 1, cs =>
    let ws := cs.takeWhile pyIsWs
    let r := cs.dropWhile pyIsWs
    match r with
    | [] => some ([], [])
    | c :: _ =>
      if xmlNameStart c then
        if ws.isEmpty then none
        else
          let nm := r.takeWhile xmlNameChar
          let r2 := (r.dropWhile xmlNameChar).dropWhile pyIsWs
          match r2 with
          | '=' :: r3 =>
            match r3.dropWhile pyIsWs with
            | q :: r4 =>
              if q = '"' || q = squote then
                match decodeUntil (fun x => x = q) fuel r4 with
                | some (v, r5) =>
                  match r5 with
                  | q2 :: r6 =>
                    if q2 = q then
                      match parseAttrsAux fuel r6 with
                      | some (rest, r7) => some ((String.mk nm, String.mk v) :: rest, r7)
                      | none => none
                    else none
                  | [] => none
                | none => none
              else none
            | [] => none
          | _ => none
      else some ([], r)

/-- Parse the children (and discarded tail texts) of an open element up to
and including its matching close tag. -/
def parseChildren : Nat → String → List Char → Option (List XElem × List Char)
  | 0, _, _ => none
  | fuel + 1, tag, cs =>
    match cs with
    | '<' :: '/' :: r1 =>
      let nm := r1.takeWhile xmlNameChar
      let r2 := (r1.dropWhile xmlNameChar).dropWhile pyIsWs
      match r2 with
      | '>' :: r3 => if String.mk nm = tag then some ([], r3) else none
      | _ => none
    | '<' :: _ =>
      match parseElem fuel cs with
      | some (child, r1) =>
        match decodeUntil (fun x => x = '<') fuel r1 with
        | some (_, r2) =>
          match parseChildren fuel tag r2 with
          | some (kids, r3) => some (child :: kids, r3)
          | none => none
        | none => none
      | none => none
    | _ => none

end

/-- Embeds `ET.fromstring`: whitespace may precede the root element, and
only whitespace may follow it. -/
def etFromstring (s : String) : Option XElem :=
  match parseElem (4 * s.data.length + 8) (s.data.dropWhile pyIsWs) with
  | some (e, rest) => if (rest.dropWhile pyIsWs).isEmpty then some e else none
  | none => none

/-- `root.find(tag)`: the first direct child with the given tag; `'.'`
selects the element itself. -/
def etFind (e : XElem) (tag : String) : Option XElem :=
  if tag = "." then some e else e.children.find? (fun c => c.tag == tag)

/-- `root.findall(tag)`: all direct children with the given tag. -/
def etFindall (e : XElem) (tag : String) : List XElem :=
  e.children.filter (fun c => c.tag == tag)

/-- `elem.get(name, default)`. -/
def etGet (e : XElem) (a : String) (d : String) : String :=
  ((e.attrs.find? (fun p => p.1 == a)).map (fun p => p.2)).getD d

/-! ## DotNetParser (dotnet_parser.py) -/

/-- Python renders `None` as the string `None` inside an f-string; used by
`_parse_list` for a missing `term`/`description` text. -/
def pyNoneText (e : XElem) : String :=
  match e.text with
  | some t => t
  | none => "None"

/-- Embeds `DotNetParser._parse_list`. -/
def dotnetParseList (l : XElem) : String :=
  let items := (etFindall l "item").map (fun item =>
    match etFind item "term", etFind item "description" with
    | some term, some desc => pyNoneText term ++ ": " ++ pyNoneText desc
    | _, _ =>
      match item.text with
      | some t => String.mk (stripChars t.data)
      | none => "")
  if etGet l "type" "bullet" = "number" then
    String.intercalate "\n" (items.enum.map (fun p => toString (p.1 + 1) ++ ". " ++ p.2))
  else
    String.intercalate "\n" (items.map (fun s => "* " ++ s))

/-- Embeds `DotNetParser._parse_see_tag`. -/
def dotnetParseSeeTag (e : XElem) : String :=
  let cref := etGet e "cref" ""
  let href := etGet e "href" ""
  let txt :=
    match e.text with
    | some t => String.mk (stripChars t.data)
    | none => ""
  if cref ≠ "" then "[" ++ (if txt ≠ "" then txt else cref) ++ "](" ++ cref ++ ")"
  else if href ≠ "" then "[" ++ (if txt ≠ "" then txt else href) ++ "](" ++ href ++ ")"
  else txt

/-- The per-child formatting cases of `DotNetParser._get_element_text`. -/
def textPartOf (child : XElem) : String :=
  if child.tag = "para" then
    match child.text with
    | some t => String.mk (stripChars t.data)
    | none => ""
  else if child.tag = "c" then
    match child.text with
    | some t => "`" ++ t ++ "`"
    | none => ""
  else if child.tag = "code" then
    match child.text with
    | some t => "```\n" ++ t ++ "\n```"
    | none => ""
  else if child.tag = "list" then dotnetParseList child
  else if child.tag = "paramref" then "`" ++ etGet child "name" "" ++ "`"
  else if child.tag = "typeparamref" then "`" ++ etGet child "name" "" ++ "`"
  else if child.tag = "see" then dotnetParseSeeTag child
  else if child.tag = "inheritdoc" then "[Inherited documentation]"
  else if child.tag = "include" then "[Included from: " ++ etGet child "file" "" ++ "]"
  else
    match child.text with
    | some t => String.mk (stripChars t.data)
    | none => ""

/-- Embeds `DotNetParser._get_element_text`: when the found element has
children their formatted texts are space-joined, otherwise the own text of the element (stripped) or the default. -/
def getElementText (root : XElem) (tag : String) (dflt : String := "") : String :=
  match etFind root tag with
  | none => dflt
  | some elem =>
    match elem.children with
    | [] =>
      match elem.text with
      | some t => String.mk (stripChars t.data)
      | none => dflt
    | kids => String.intercalate " " (kids.map textPartOf)

/-- One entry produced by `DotNetParser._get_element_list`: the formatted text of the element and its attribute dict. -/
structure XListEntry where
  text : String
  attributes : List (String × String)
deriving Repr, DecidableEq

/-- Embeds `DotNetParser._get_element_list`. -/
def getElementList (root : XElem) (tag : String) : List XListEntry :=
  (etFindall root tag).map (fun e => { text := getElementText e ".", attributes := e.attrs })

/-- Result dict of `DotNetParser._parse_class`. -/
structure ClassDoc where
  name : String
  summary : String
  remarks : String
  example_ : String
  see_also : List XListEntry
  type_params : List XListEntry
  inheritance : String
  includes : List XListEntry
deriving Repr, DecidableEq

/-- Result dict of `DotNetParser._parse_method`. -/
structure MethodDoc where
  name : String
  summary : String
  parameters : List XListEntry
  returns : String
  exceptions : List XListEntry
  remarks : String
  example_ : String
  type_params : List XListEntry
  see_also : List XListEntry
  inheritance : String
  includes : List XListEntry
deriving Repr, DecidableEq

/-- Result dict of `DotNetParser._parse_property`. -/
structure PropertyDoc where
  name : String
  summary : String
  value : String
  remarks : String
  example_ : String
  see_also : List XListEntry
  inheritance : String
  includes : List XListEntry
deriving Repr, DecidableEq

/-- Result dict of `DotNetParser._parse_enum`. -/
structure EnumDoc where
  name : String
  summary : String
  remarks : String
  values : List XListEntry
  see_also : List XListEntry
  inheritance : String
  includes : List XListEntry
deriving Repr, DecidableEq

/-- Result dict of `DotNetParser._parse_interface`. -/
structure InterfaceDoc where
  name : String
  summary : String
  remarks : String
  example_ : String
  type_params : List XListEntry
  see_also : List XListEntry
  inheritance : String
  includes : List XListEntry
deriving Repr, DecidableEq

/-- Result dict of `DotNetParser._parse_type`. -/
structure TypeDoc where
  name : String
  summary : String
  remarks : String
  type_params : List XListEntry
  see_also : List XListEntry
  inheritance : String
  includes : List XListEntry
deriving Repr, DecidableEq

/-- Embeds `DotNetParser._parse_class` (the `example_` field embeds the
dict key `example`, which is a keyword in Lean). -/
def dotnetParseClass (root : XElem) : ClassDoc where
  name := etGet root "name" ""
  summary := getElementText root "summary"
  remarks := getElementText root "remarks"
  example_ := getElementText root "example"
  see_also := getElementList root "seealso"
  type_params := getElementList root "typeparam"
  inheritance := getElementText root "inheritdoc"
  includes := getElementList root "include"

/-- Embeds `DotNetParser._parse_method`. -/
def dotnetParseMethod (root : XElem) : MethodDoc where
  name := etGet root "name" ""
  summary := getElementText root "summary"
  parameters := getElementList root "param"
  returns := getElementText root "returns"
  exceptions := getElementList root "exception"
  remarks := getElementText root "remarks"
  example_ := getElementText root "example"
  type_params := getElementList root "typeparam"
  see_also := getElementList root "seealso"
  inheritance := getElementText root "inheritdoc"
  includes := getElementList root "include"

/-- Embeds `DotNetParser._parse_property`. -/
def dotnetParseProperty (root : XElem) : PropertyDoc where
  name := etGet root "name" ""
  summary := getElementText root "summary"
  value := getElementText root "value"
  remarks := getElementText root "remarks"
  example_ := getElementText root "example"
  see_also := getElementList root "seealso"
  inheritance := getElementText root "inheritdoc"
  includes := getElementList root "include"

/-- Embeds `DotNetParser._parse_enum`. -/
def dotnetParseEnum (root : XElem) : EnumDoc where
  name := etGet root "name" ""
  summary := getElementText root "summary"
  remarks := getElementText root "remarks"
  values := getElementList root "value"
  see_also := getElementList root "seealso"
  inheritance := getElementText root "inheritdoc"
  includes := getElementList root "include"

/-- Embeds `DotNetParser._parse_interface`. -/
def dotnetParseInterface (root : XElem) : InterfaceDoc where
  name := etGet root "name" ""
  summary := getElementText root "summary"
  remarks := getElementText root "remarks"
  example_ := getElementText root "example"
  type_params := getElementList root "typeparam"
  see_also := getElementList root "seealso"
  inheritance := getElementText root "inheritdoc"
  includes := getElementList root "include"

/-- Embeds `DotNetParser._parse_type`. -/
def dotnetParseType (root : XElem) : TypeDoc where
  name := etGet root "name" ""
  summary := getElementText root "summary"
  remarks := getElementText root "remarks"
  type_params := getElementList root "typeparam"
  see_also := getElementList root "seealso"
  inheritance := getElementText root "inheritdoc"
  includes := getElementList root "include"

/-- The per-file documentation dict of `DotNetParser.parse_file`. -/
structure DotnetDocs where
  classes : List ClassDoc := []
  methods : List MethodDoc := []
  properties : List PropertyDoc := []
  enums : List EnumDoc := []
  interfaces : List InterfaceDoc := []
  types : List TypeDoc := []
deriving Repr, DecidableEq

/-- Total number of documentation entries across all buckets. -/
def dotnetTotalItems (d : DotnetDocs) : Nat :=
  d.classes.length + d.methods.length + d.properties.length + d.enums.length
    + d.interfaces.length + d.types.length

/-- Root tags that `parse_file` dispatches on. -/
def recognizedRootB (t : String) : Bool :=
  t = "class" || t = "method" || t = "property" || t = "enum"
    || t = "interface" || t = "type"

/-- The `if root.tag == ...` dispatch of `DotNetParser.parse_file`;
well-formed blocks with any other root tag silently produce nothing. -/
def dotnetAddRoot (d : DotnetDocs) (root : XElem) : DotnetDocs :=
  if root.tag = "class" then { d with classes := d.classes ++ [dotnetParseClass root] }
  else if root.tag = "method" then { d with methods := d.methods ++ [dotnetParseMethod root] }
  else if root.tag = "property" then
    { d with properties := d.properties ++ [dotnetParseProperty root] }
  else if root.tag = "enum" then { d with enums := d.enums ++ [dotnetParseEnum root] }
  else if root.tag = "interface" then
    { d with interfaces := d.interfaces ++ [dotnetParseInterface root] }
  else if root.tag = "type" then { d with types := d.types ++ [dotnetParseType root] }
  else d

/-- Process one doc block: a block that fails to parse as XML is recorded
as a diagnostic (the `except ET.ParseError` branch prints and continues),
a well-formed block is dispatched on its root tag. -/
def dotnetProcessBlock (st : DotnetDocs × List String) (block : String) :
    DotnetDocs × List String :=
  match etFromstring block with
  | none => (st.1, st.2 ++ [block])
  | some root => (dotnetAddRoot st.1 root, st.2)

/-- The block loop of `DotNetParser.parse_file`; the second component
collects the diagnostics. -/
def dotnetParseBlocks (blocks : List String) : DotnetDocs × List String :=
  blocks.foldl dotnetProcessBlock ({}, [])

/-- Embeds `re.sub(r'^\s*///\s*', '', line)`. -/
def dotnetStripMarker (line : List Char) : List Char :=
  let r := line.dropWhile pyIsWs
  if startsWithL ['/', '/', '/'] r then (r.drop 3).dropWhile pyIsWs else line

/-- The block-accumulation loop of `DotNetParser.parse_file`: contiguous
runs of `///` lines (markers stripped) are newline-joined into blocks; any
other line ends the current block, and a run still open at end of file is
flushed as a block. -/
def dotnetCollectAux : List (List Char) → List (List Char) → List (List Char)
  | [], cur => if cur.isEmpty then [] else [joinNL cur]
  | l :: ls, cur =>
    if startsWithL ['/', '/', '/'] (stripChars l) then
      dotnetCollectAux ls (cur ++ [dotnetStripMarker l])
    else if cur.isEmpty then dotnetCollectAux ls []
    else joinNL cur :: dotnetCollectAux ls []

/-- The doc blocks of the content of a file. -/
def dotnetCollectBlocks (content : String) : List String :=
  (dotnetCollectAux (pySplitChar '\n' content.data) []).map String.mk

/-- Embeds `DotNetParser.parse_file` on file content; the second component
is the list of diagnostics (one per malformed block). -/
def dotnetParseFile (content : String) : DotnetDocs × List String :=
  dotnetParseBlocks (dotnetCollectBlocks content)

/-! ## SwiftParser (swift_parser.py)

The parsed `doc_block` is a Python dict; it is embedded as an association
list `SDict` of string keys to `DVal` values so that key lookups (and in
particular the `params` / `parameters` key mismatch in
`SwiftParser.parse_file`) are modelled exactly. -/

/-- A value stored in the Swift `doc_block` dict: a string, a list of
name/description dicts, a list of text dicts, a list of plain strings, or
the literal empty dict used as the `params` default. -/
inductive DVal where
  | str (s : String)
  | namedList (l : List (String × String))
  | textList (l : List String)
  | strList (l : List String)
  | emptyDict
deriving Repr, DecidableEq

/-- The `doc_block` dict. -/
abbrev SDict := List (String × DVal)

/-- Python `d.get(k)` / `d[k]`. -/
def dictGet (d : SDict) (k : String) : Option DVal :=
  ((d.find? (fun p => p.1 == k)).map (fun p => p.2))

/-- Python `k in d`. -/
def dictHas (d : SDict) (k : String) : Bool :=
  (d.find? (fun p => p.1 == k)).isSome

/-- Python `d[k] = v`: replace in place, or append a new key. -/
def dictSet (d : SDict) (k : String) (v : DVal) : SDict :=
  if dictHas d k then d.map (fun p => if p.1 == k then (k, v) else p)
  else d ++ [(k, v)]

/-- Python `d[k].append(entry)` for a name/description list (the source
only calls this on keys initialized to such lists). -/
def appendNamed (d : SDict) (k : String) (nv : String × String) : SDict :=
  match dictGet d k with
  | some (.namedList l) => dictSet d k (.namedList (l ++ [nv]))
  | _ => d

/-- Python `if tag_list in doc_block: doc_block[tag_list].append(...)` for
a text-entry list. -/
def appendTextIfKey (d : SDict) (k : String) (t : String) : SDict :=
  if dictHas d k then
    match dictGet d k with
    | some (.textList l) => dictSet d k (.textList (l ++ [t]))
    | _ => d
  else d

/-- The initial `doc_block` dict of `SwiftParser._parse_doc_block`. -/
def swiftInitDict : SDict :=
  [("description", .str ""), ("parameters", .namedList []), ("returns", .textList []),
   ("throws", .textList []), ("notes", .textList []), ("warnings", .textList []),
   ("important", .textList []), ("see_also", .textList []), ("preconditions", .textList []),
   ("postconditions", .textList []), ("cases", .namedList [])]

/-- Embeds `re.sub` of the `^\s*/\*\*\s*` alternative of
`SwiftParser._clean_description`. -/
def subLeadOpen (cs : List Char) : List Char :=
  let r := cs.dropWhile pyIsWs
  if startsWithL ['/', '*', '*'] r then (r.drop 3).dropWhile pyIsWs else cs

/-- Embeds `re.sub` of the `\s*\*/\s*$` alternative: remove a trailing
`*/` and the whitespace around it. -/
def subTrailClose (cs : List Char) : List Char :=
  let r := rstripChars cs
  if startsWithL ['/', '*'] r.reverse then rstripChars r.dropLast.dropLast else cs

/-- Embeds `SwiftParser._clean_description`: the `/**` branch strips the
block markers and per-line `*` decorations; the `///` branch strips the
per-line markers and drops blank lines at the start. -/
def swiftClean (cs : List Char) : List Char :=
  if startsWithL ['/', '*', '*'] cs then
    let t := subTrailClose (subLeadOpen cs)
    stripChars (joinNL (((pySplitChar '\n' t).map kotlinSubLeadStar).map rstripChars))
  else
    stripChars (joinNL ((((pySplitChar '\n' cs).map dotnetStripMarker).dropWhile
      (fun l => (stripChars l).isEmpty)).map rstripChars))

/-- A delimiter match for `re.split(r'\n##\s+', text)`. -/
def secDelim (cs : List Char) : Option (List Char) :=
  match cs with
  | '\n' :: '#' :: '#' :: r =>
    if (r.takeWhile pyIsWs).isEmpty then none else some (r.dropWhile pyIsWs)
  | _ => none

/-- Generic `re.split` on a scanned delimiter. -/
def splitWithDelim (delim : List Char → Option (List Char)) :
    Nat → List Char → List (List Char)
  | 0, cs => [cs]
  | _ + 1, [] => [[]]
  | fuel + 1, c :: cs =>
    match delim (c :: cs) with
    | some rest => [] :: splitWithDelim delim fuel rest
    | none =>
      match splitWithDelim delim fuel cs with
      | [] => [[c]]
      | h :: t => (c :: h) :: t

/-- The tag names of `tag_patterns`, in dict order (used by the
lookahead alternation `(?:Parameters|Returns|...)`). -/
def swiftTagNames : List (List Char) :=
  ["Parameters", "Returns", "Throws", "Note", "Warning", "Important",
   "SeeAlso", "Precondition", "Postcondition", "Case"].map String.data

/-- First alternative that is a literal prefix (no tag name is a prefix of
another, so first-match equals the regex alternation). -/
def matchAnyLead : List (List Char) → List Char → Option (List Char)
  | [], _ => none
  | p :: ps, cs => if startsWithL p cs then some (cs.drop p.length) else matchAnyLead ps cs

/-- The lookahead `(?=-\s+(?:TAGS)\s*:)` used to split the tag region. -/
def tagLookahead (r : List Char) : Bool :=
  match r with
  | '-' :: r1 =>
    if (r1.takeWhile pyIsWs).isEmpty then false
    else
      match matchAnyLead swiftTagNames (r1.dropWhile pyIsWs) with
      | some r2 =>
        match r2.dropWhile pyIsWs with
        | ':' :: _ => true
        | _ => false
      | none => false
  | _ => false

/-- Delimiter of `re.split(r'\n(?=(?:-\s+(?:TAGS)\s*:))', main_section)`:
only the newline is consumed. -/
def tagRegionDelim (cs : List Char) : Option (List Char) :=
  match cs with
  | '\n' :: r => if tagLookahead r then some r else none
  | _ => none

/-- One attempt to match a tag pattern `-\s*LIT(s?)\s*:([^-]*)` at the
head of the input; `optS` embeds the optional plural `s?` (greedy, with
backtracking into the bare literal). -/
def matchTagAt (lit : List Char) (optS : Bool) (cs : List Char) :
    Option (List Char × List Char) :=
  match cs with
  | '-' :: r1 =>
    let r2 := r1.dropWhile pyIsWs
    if startsWithL lit r2 then
      let r3 := r2.drop lit.length
      let cont := fun (r : List Char) =>
        match r.dropWhile pyIsWs with
        | ':' :: r4 =>
          some (r4.takeWhile (fun x => x ≠ '-'), r4.dropWhile (fun x => x ≠ '-'))
        | _ => none
      if optS then
        match r3 with
        | 's' :: r3s =>
          match cont r3s with
          | some x => some x
          | none => cont r3
        | _ => cont r3
      else cont r3
    else none
  | _ => none

/-- `re.finditer` for one tag pattern; returns the raw captures. -/
def findTagOcc (lit : List Char) (optS : Bool) : Nat → List Char → List (List Char)
  | 0, _ => []
  | _ + 1, [] => []
  | fuel + 1, c :: cs =>
    match matchTagAt lit optS (c :: cs) with
    | some (t, rest) => t :: findTagOcc lit optS fuel rest
    | none => findTagOcc lit optS fuel cs

/-- One attempt to match `parameter_pattern = -\s*(\w+)\s*:([^-]*)`
(DOTALL); the description is stripped at the append site. -/
def matchParamItemAt (cs : List Char) : Option ((String × String) × List Char) :=
  match cs with
  | '-' :: r1 =>
    let r2 := r1.dropWhile pyIsWs
    let nm := r2.takeWhile isWordChar
    if nm.isEmpty then none else
    match (r2.dropWhile isWordChar).dropWhile pyIsWs with
    | ':' :: r4 =>
      some ((String.mk nm, String.mk (stripChars (r4.takeWhile (fun x => x ≠ '-')))),
        r4.dropWhile (fun x => x ≠ '-'))
    | _ => none
  | _ => none

/-- `parameter_pattern.finditer`. -/
def findParamItems : Nat → List Char → List (String × String)
  | 0, _ => []
  | _ + 1, [] => []
  | fuel + 1, c :: cs =>
    match matchParamItemAt (c :: cs) with
    | some (nv, rest) => nv :: findParamItems fuel rest
    | none => findParamItems fuel cs

/-- Embeds `re.match(r'-\s*`(\w+)`\s*:\s*(.+)', line.strip())` used for
one `Cases` line; `(.+)` cannot match a newline, but a split line never
contains one. -/
def matchCaseLine (line : List Char) : Option (String × String) :=
  match stripChars line with
  | '-' :: r1 =>
    match r1.dropWhile pyIsWs with
    | '`' :: r3 =>
      let nm := r3.takeWhile isWordChar
      if nm.isEmpty then none else
      match r3.dropWhile isWordChar with
      | '`' :: r4 =>
        match r4.dropWhile pyIsWs with
        | ':' :: r5 =>
          let rest := r5.dropWhile pyIsWs
          if rest.isEmpty then none
          else some (String.mk nm, String.mk (stripChars rest))
        | _ => none
      | _ => none
    | _ => none
  | _ => none

/-- Embeds `re.match(r'(\w+):\s*(.+)', content)` for a `- Case:` tag; the
content was stripped before the match, so a whitespace-only remainder
cannot occur. -/
def matchCaseContent (content : List Char) : Option (String × String) :=
  let nm := content.takeWhile isWordChar
  if nm.isEmpty then none else
  match content.dropWhile isWordChar with
  | ':' :: r =>
    let rest := r.dropWhile pyIsWs
    if rest.isEmpty then none
    else some (String.mk nm, String.mk (stripChars (rest.takeWhile (fun x => x ≠ '\n'))))
  | _ => none

/-- `re.findall` of the fenced-code pattern (triple-backtick `swift`
blocks, lazily closed). -/
def findCodeBlocks : Nat → List Char → List (List Char)
  | 0, _ => []
  | _ + 1, [] => []
  | fuel + 1, c :: cs =>
    if startsWithL ("```swift\n".data) (c :: cs) then
      match splitFirstSub ("```".data) ((c :: cs).drop 9) with
      | some (code, rest) => code :: findCodeBlocks fuel rest
      | none => []
    else findCodeBlocks fuel cs

/-- Lowercase a string (Python `str.lower`, ASCII fragment). -/
def lowerStr (s : String) : String := String.mk (s.data.map Char.toLower)

/-- The tag loop data of `_parse_tags`, in `tag_patterns` dict order:
display name, regex literal, and whether the pattern carries `s?`. -/
def swiftTagSpecs : List (String × List Char × Bool) :=
  [("Parameters", "Parameter".data, true), ("Returns", "Return".data, true),
   ("Throws", "Throws".data, false), ("Note", "Note".data, false),
   ("Warning", "Warning".data, false), ("Important", "Important".data, false),
   ("SeeAlso", "SeeAlso".data, false), ("Precondition", "Precondition".data, false),
   ("Postcondition", "Postcondition".data, false), ("Case", "Case".data, false)]

/-- The per-match action of `_parse_tags`: `Parameters` runs the item
pattern over the stripped capture, `Case` matches one `name: text` pair,
and every other tag appends a text entry under `tag.lower() + 's'`
provided that key exists (for `Returns`, `Throws`, `Important` and
`SeeAlso` it does not, so those captures are dropped). -/
def swiftTagAction (tag : String) (d : SDict) (rawContent : List Char) : SDict :=
  let content := stripChars rawContent
  if tag = "Parameters" then
    (findParamItems (content.length + 1) content).foldl
      (fun d nv => appendNamed d "parameters" nv) d
  else if tag = "Case" then
    match matchCaseContent content with
    | some nv => appendNamed d "cases" nv
    | none => d
  else appendTextIfKey d (lowerStr tag ++ "s") (String.mk content)

/-- Embeds `SwiftParser._parse_tags`. -/
def swiftParseTags (tagsText : List Char) (d : SDict) : SDict :=
  swiftTagSpecs.foldl
    (fun d spec =>
      (findTagOcc spec.2.1 spec.2.2 (tagsText.length + 1) tagsText).foldl
        (fun d cap => swiftTagAction spec.1 d cap) d)
    d

/-- Python `section.split('\n', 1)` when it yields two parts. -/
def splitFirstNL (cs : List Char) : Option (List Char × List Char) :=
  if containsSub ['\n'] cs then
    some (cs.takeWhile (fun x => x ≠ '\n'), (cs.dropWhile (fun x => x ≠ '\n')).drop 1)
  else none

/-- The `##` section loop body shared by `_parse_doc_block` (`full`) and
`_process_doc_block` (example extraction only). -/
def swiftSectionAction (full : Bool) (d : SDict) (sec : List Char) : SDict :=
  if (stripChars sec).isEmpty then d
  else
    match splitFirstNL sec with
    | none => d
    | some (title, content) =>
      let t := title.map Char.toLower
      if t = "example".data then
        let blocks := (findCodeBlocks (content.length + 1) content).map
          (fun b => String.mk (stripChars b))
        if blocks.isEmpty then d else dictSet d "examples" (.strList blocks)
      else if full && t = "parameters".data then
        (findParamItems (content.length + 1) content).foldl
          (fun d nv => appendNamed d "parameters" nv) d
      else if full && t = "cases".data then
        (pySplitChar '\n' (stripChars content)).foldl
          (fun d line =>
            match matchCaseLine line with
            | some nv => appendNamed d "cases" nv
            | none => d) d
      else d

/-- Embeds `SwiftParser._parse_doc_block`. -/
def swiftParseDocBlock (docText : List Char) : SDict :=
  let t := swiftClean docText
  let sections := splitWithDelim secDelim (t.length + 1) t
  let main := stripChars (sections.headD [])
  let parts := splitWithDelim tagRegionDelim (main.length + 1) main
  let d := dictSet swiftInitDict "description" (.str (String.mk (stripChars (parts.headD []))))
  let d := if 1 < parts.length then swiftParseTags (joinNL (parts.drop 1)) d else d
  (sections.drop 1).foldl (swiftSectionAction true) d

/-- Core of the generic-class special case of `_detect_code_element`
(`class\s+(\w+)\s*<`; for an unanchored search the optional access-level
qualifier changes neither success nor the captured name, so the core is
embedded). -/
def matchSwiftGenericAt (cs : List Char) : Option (List Char) :=
  if startsWithL ['c', 'l', 'a', 's', 's'] cs then
    let r1 := cs.drop 5
    if (r1.takeWhile pyIsWs).isEmpty then none else
    let r2 := r1.dropWhile pyIsWs
    let w := r2.takeWhile isWordChar
    if w.isEmpty then none else
    match (r2.dropWhile isWordChar).dropWhile pyIsWs with
    | '<' :: _ => some w
    | _ => none
  else none

/-- Core of the `function` pattern `func\s+([a-zA-Z_][a-zA-Z0-9_]*)`. -/
def matchSwiftFuncAt (cs : List Char) : Option (List Char) :=
  if startsWithL ['f', 'u', 'n', 'c'] cs then
    let r1 := cs.drop 4
    if (r1.takeWhile pyIsWs).isEmpty then none else
    let r2 := r1.dropWhile pyIsWs
    match r2 with
    | c :: _ =>
      if ('a' ≤ c && c ≤ 'z') || ('A' ≤ c && c ≤ 'Z') || c = '_' then
        some (r2.takeWhile isWordChar)
      else none
    | [] => none
  else none

/-- Core of the `property` pattern `(?:var|let)\s+(\w+)`. -/
def matchSwiftPropAt (cs : List Char) : Option (List Char) :=
  if startsWithL ['v', 'a', 'r'] cs || startsWithL ['l', 'e', 't'] cs then
    let r1 := cs.drop 3
    if (r1.takeWhile pyIsWs).isEmpty then none else
    let r2 := r1.dropWhile pyIsWs
    let w := r2.takeWhile isWordChar
    if w.isEmpty then none else some w
  else none

/-- Core of the `enum` pattern `enum\s+(\w+)`. -/
def matchSwiftEnumAt (cs : List Char) : Option (List Char) :=
  if startsWithL ['e', 'n', 'u', 'm'] cs then
    let r1 := cs.drop 4
    if (r1.takeWhile pyIsWs).isEmpty then none else
    let r2 := r1.dropWhile pyIsWs
    let w := r2.takeWhile isWordChar
    if w.isEmpty then none else some w
  else none

/-- Core of the `case` pattern `case\s+(\w+)(?:\s*=\s*[^,]+)?` (the
optional initializer does not influence the captured name). -/
def matchSwiftCaseAt (cs : List Char) : Option (List Char) :=
  if startsWithL ['c', 'a', 's', 'e'] cs then
    let r1 := cs.drop 4
    if (r1.takeWhile pyIsWs).isEmpty then none else
    let r2 := r1.dropWhile pyIsWs
    let w := r2.takeWhile isWordChar
    if w.isEmpty then none else some w
  else none

/-- Core of the `type` pattern `class\s+(\w+)(?:\s*<[^>]*>)?` (the
optional generic suffix does not influence the captured name). -/
def matchSwiftTypeAt (cs : List Char) : Option (List Char) :=
  if startsWithL ['c', 'l', 'a', 's', 's'] cs then
    let r1 := cs.drop 5
    if (r1.takeWhile pyIsWs).isEmpty then none else
    let r2 := r1.dropWhile pyIsWs
    let w := r2.takeWhile isWordChar
    if w.isEmpty then none else some w
  else none

/-- The generic-class pre-check of `SwiftParser._detect_code_element`. -/
def swiftDetectGeneric (codeLine : List Char) : Option String :=
  (searchWith matchSwiftGenericAt (codeLine.length + 1) codeLine).map String.mk

/-- Embeds `SwiftParser._detect_code_element`: the generic-class special
case first, then the `code_patterns` dict in insertion order — class,
function, property, enum, case, type. -/
def swiftDetect (codeLine : List Char) : Option (String × String) :=
  let fuel := codeLine.length + 1
  match swiftDetectGeneric codeLine with
  | some n => some ("type", n)
  | none =>
  match searchWith matchClassNoGenericAt fuel codeLine with
  | some n => some ("class", String.mk n)
  | none =>
  match searchWith matchSwiftFuncAt fuel codeLine with
  | some n => some ("function", String.mk n)
  | none =>
  match searchWith matchSwiftPropAt fuel codeLine with
  | some n => some ("property", String.mk n)
  | none =>
  match searchWith matchSwiftEnumAt fuel codeLine with
  | some n => some ("enum", String.mk n)
  | none =>
  match searchWith matchSwiftCaseAt fuel codeLine with
  | some n => some ("case", String.mk n)
  | none =>
  match searchWith matchSwiftTypeAt fuel codeLine with
  | some n => some ("type", String.mk n)
  | none => none

/-- The per-file documentation dict of `SwiftParser._parse_file_to_dict`. -/
structure SwiftDocs where
  classes : List SDict := []
  functions : List SDict := []
  properties : List SDict := []
  enums : List SDict := []
  cases : List SDict := []
  types : List SDict := []
deriving Repr, DecidableEq

/-- `documentation[plural_type].append(doc_block)`. -/
def swiftAppend (d : SwiftDocs) (k : String) (db : SDict) : SwiftDocs :=
  if k = "classes" then { d with classes := d.classes ++ [db] }
  else if k = "functions" then { d with functions := d.functions ++ [db] }
  else if k = "properties" then { d with properties := d.properties ++ [db] }
  else if k = "enums" then { d with enums := d.enums ++ [db] }
  else if k = "cases" then { d with cases := d.cases ++ [db] }
  else if k = "types" then { d with types := d.types ++ [db] }
  else d

/-- First non-empty line of a cleaned block (used as the description of a
`case` item). -/
def firstNonEmptyLine (cs : List Char) : Option (List Char) :=
  ((pySplitChar '\n' cs).find? (fun l => !(stripChars l).isEmpty)).map stripChars

/-- The `case` branch of `_process_doc_block`: use the first non-empty
line of the cleaned block as the description. -/
def swiftCaseDescription (docText : List Char) (db : SDict) : SDict :=
  match firstNonEmptyLine (swiftClean docText) with
  | some l => dictSet db "description" (.str (String.mk l))
  | none => db

/-- The property/function/enum/type/class branch of `_process_doc_block`:
recompute the description from the cleaned text and extract examples from
the `##` sections. -/
def swiftRichDescription (docText : List Char) (db : SDict) : SDict :=
  let ct := swiftClean docText
  let sections := splitWithDelim secDelim (ct.length + 1) ct
  let main := stripChars (sections.headD [])
  let parts := splitWithDelim tagRegionDelim (main.length + 1) main
  (sections.drop 1).foldl (swiftSectionAction false)
    (dictSet db "description" (.str (String.mk (stripChars (parts.headD [])))))

/-- The `plural_map` bucket name for a Swift element type. -/
def swiftPluralOf (et : String) : String :=
  if et = "class" then "classes"
  else if et = "function" then "functions"
  else if et = "property" then "properties"
  else if et = "enum" then "enums"
  else if et = "case" then "cases"
  else "types"

/-- Embeds `SwiftParser._process_doc_block` (the source computes
`_parse_doc_block` before classifying; both are pure, so hoisting the
classification match first is observationally identical). -/
def swiftProcessDocBlock (docText codeLine : List Char) (doc : SwiftDocs) : SwiftDocs :=
  match swiftDetect codeLine with
  | none => doc
  | some (et, n) =>
    let db := dictSet (swiftParseDocBlock docText) "name" (.str n)
    let db := if et = "case" then swiftCaseDescription docText db else db
    let db :=
      if et = "property" || et = "function" || et = "enum" || et = "type" || et = "class" then
        swiftRichDescription docText db
      else db
    swiftAppend doc (swiftPluralOf et) db

/-- The `/**` collection loop: consume lines until (and including) the
first subsequent line containing `*/` (the opening line itself is not
checked). -/
def collectUntilClose : List String → List String × List String
  | [] => ([], [])
  | l :: ls =>
    if containsSub ['*', '/'] l.data then ([l], ls)
    else
      let p := collectUntilClose ls
      (l :: p.1, p.2)

/-- The scanning loop of `SwiftParser._parse_file_to_dict` over the lines of the file.  A `///` run is collected, blank lines are skipped, and the block
is processed against the following code line (which is consumed; a block
whose code line is itself a doc-comment start is dropped).  A block that
reaches the end of file without a code line is dropped. -/
def swiftScan : Nat → List String → SwiftDocs → SwiftDocs
  | 0, _, doc => doc
  | _ + 1, [], doc => doc
  | fuel + 1, line :: rest, doc =>
    if startsWithL ['/', '/', '/'] (stripChars line.data) then
      let isDocLine := fun (l : String) => startsWithL ['/', '/', '/'] (stripChars l.data)
      let docLines := line :: rest.takeWhile isDocLine
      let rest1 := (rest.dropWhile isDocLine).dropWhile (fun l => (stripChars l.data).isEmpty)
      match rest1 with
      | [] => doc
      | codeLine :: rest3 =>
        let cstr := stripChars codeLine.data
        let doc2 :=
          if !(startsWithL ['/', '/', '/'] cstr) && !(startsWithL ['/', '*', '*'] cstr) then
            swiftProcessDocBlock (joinNL (docLines.map String.data)) codeLine.data doc
          else doc
        swiftScan fuel rest3 doc2
    else if startsWithL ['/', '*', '*'] (stripChars line.data) then
      let p := collectUntilClose rest
      let rest1 := p.2.dropWhile (fun l => (stripChars l.data).isEmpty)
      match rest1 with
      | [] => doc
      | codeLine :: rest3 =>
        swiftScan fuel rest3
          (swiftProcessDocBlock (joinNL ((line :: p.1).map String.data)) codeLine.data doc)
    else swiftScan fuel rest doc

/-- Embeds `SwiftParser._parse_file_to_dict` on the lines of the file. -/
def swiftParseDict (lines : List String) : SwiftDocs :=
  swiftScan (lines.length + 1) lines {}

/-- Modelled from the spec: the canonical `DocItem` record of §3 is
defined in `parsers/base.py`, which is not among the provided sources; it
is embedded as a plain record of the constructor keywords used at the
single construction site in `SwiftParser.parse_file`.  Fields keep the
dict values (`DVal`) they are constructed from; `params` receives the
literal empty-dict default (`DVal.emptyDict`) when its key is absent. -/
structure DocItem where
  name : DVal
  type : String
  description : DVal
  signature : Option DVal
  params : DVal
  returns : Option DVal
  examples : DVal
  source_file : String
  line_number : Option Nat
deriving Repr, DecidableEq

/-- The `section_type` to `item_type` mapping of `SwiftParser.parse_file`;
the `types` bucket has no case, so it falls to `unknown`. -/
def sectionItemType (sectionType : String) : String :=
  if sectionType = "classes" then "class"
  else if sectionType = "functions" then "function"
  else if sectionType = "properties" then "property"
  else if sectionType = "enums" then "enum"
  else if sectionType = "cases" then "case"
  else "unknown"

/-- The `DocItem(...)` construction of `SwiftParser.parse_file`; note the
lookup of `params` against a dict whose parser stores `parameters`. -/
def convertItem (path : String) (sectionType : String) (db : SDict) : DocItem where
  name := (dictGet db "name").getD (.str "Unknown")
  type := sectionItemType sectionType
  description := (dictGet db "description").getD (.str "")
  signature := dictGet db "signature"
  params := (dictGet db "params").getD .emptyDict
  returns := dictGet db "returns"
  examples := (dictGet db "examples").getD (.strList [])
  source_file := path
  line_number := none

/-- Embeds `SwiftParser.parse_file` over the lines of the file: the buckets are
iterated in dict insertion order and flattened into the item list. -/
def swiftParseFileItems (path : String) (lines : List String) : List DocItem :=
  let d := swiftParseDict lines
  d.classes.map (convertItem path "classes") ++ d.functions.map (convertItem path "functions")
    ++ d.properties.map (convertItem path "properties")
    ++ d.enums.map (convertItem path "enums") ++ d.cases.map (convertItem path "cases")
    ++ d.types.map (convertItem path "types")

/-- Embeds `SwiftParser.parse_file` on raw file content. -/
def swiftParseFile (path content : String) : List DocItem :=
  swiftParseFileItems path ((pySplitChar '\n' content.data).map String.mk)

/-! ## Concrete inputs used by the claim theorems -/

/-- An XML doc block at end of file with no following code line. -/
def c1Content : String := "/// <class name=\"A\"><summary>ok</summary></class>"

/-- A file with two doc blocks: a well-formed one with an unrecognized
root tag, and a malformed one. -/
def c2Content : String := "/// <foo></foo>\nint x;\n/// <class"

/-- Two files whose doc blocks differ only in the block contents (root
tag), with the identical following line. -/
def c3ContentA : String := "/// <class name=\"X\"></class>\nint x;"

/-- Same anchor context as `c3ContentA`, different block content. -/
def c3ContentB : String := "/// <method name=\"X\"></method>\nint x;"

/-- A KDoc block containing a `@` that does not begin a recognized tag. -/
def c5Kdoc : List Char := "Email a@b.\n@return total".data

/-- A KDoc `@param` whose text contains a stray `@`. -/
def c5Kdoc2 : List Char := "@param a x@y z".data

/-- The KDoc block of the C6 scenario. -/
def c6Kdoc : List Char := "Computes sum.\n@param a first\n@param b second\n@return total".data

/-- The anchor line of the C6 scenario. -/
def c6Anchor : List Char := "fun add(a: Int, b: Int): Int".data

/-- The Swift file of the C7 scenario: a doc block with a `Cases`
subsection holding two case lines, anchored at an enum-case line. -/
def c7Lines : List String :=
  ["/// The color red.", "///", "/// ## Cases",
   "/// - `red`: the red case", "/// - `blue`: the blue case", "case red"]

/-- The XML doc block of the C8 scenario. -/
def c8Block : String :=
  "<method name=\"Foo\"><summary>Does X</summary><param name=\"a\">first</param><returns>a value</returns></method>"

/-- A Swift file whose doc block declares a parameter (via a
`## Parameters` subsection). -/
def c9Lines : List String :=
  ["/// Adds.", "/// ## Parameters", "/// - x: the x", "func add(x: Int)"]

/-! ## Claim theorems -/

/-- C1, counterexample: the claim says a doc block at end of file with no
following code line yields zero items in every dialect, but
`DotNetParser.parse_file` never consults an anchor line — a well-formed
trailing block still yields its item (1 item, not 0, and no diagnostic). -/
theorem c1_counterexample :
    dotnetTotalItems (dotnetParseFile c1Content).1 = 1 ∧
    (dotnetParseFile c1Content).2 = [] ∧ dotnetTotalItems (dotnetParseFile c1Content).1 ≠ 0 := by
  refine ⟨rfl, rfl, ?_⟩
  decide

/-- C4, evaluation at the failing inputs: Kotlin classifies the generic
declaration `class Box<T>` as a plain class named `Bo` (backtracking into
the word run defeats the negative lookahead that the source comments with
`Do not match generic classes`), and classifies `enum class Color` as a
class (the `class` pattern is tried before `enum` in dict order, making
the `enum` pattern unreachable); Swift, whose detection checks the
generic form first, classifies `public class Stack<T>` as a type. -/
theorem c4_code_evaluation :
    kotlinDetect "class Box<T>".data = some ("class", "Bo") ∧
    kotlinDetect "enum class Color".data = some ("class", "Color") ∧
    swiftDetect "public class Stack<T>".data = some ("type", "Stack") := by
  refine ⟨rfl, rfl, rfl⟩

/-- C5, counterexample: the description is cut at the first `@` character
even when it does not begin a recognized tag (`Email a@b.` becomes
`Email a`), and a `@param` text is cut at a stray `@` (`x@y z` becomes
`x`); the claim demands the text extend to the next recognized tag. -/
theorem c5_counterexample :
    (kotlinStep c5Kdoc c6Anchor).map (fun p => p.2.description) = some "Email a" ∧
    (kotlinStep c5Kdoc c6Anchor).map (fun p => p.2.description) ≠ some "Email a@b." ∧
    (kotlinStep c5Kdoc2 c6Anchor).map (fun p => p.2.parameters) = some [("a", "x")] ∧
    (kotlinStep c5Kdoc2 c6Anchor).map (fun p => p.2.parameters) ≠ some [("a", "x@y z")] := by
  refine ⟨rfl, by decide, rfl, by decide⟩

/-- C6: the KDoc block `Computes sum.` with two `@param` tags and one
`@return`, anchored at `fun add(a: Int, b: Int): Int`, produces one entry
in the `functions` bucket named `add` with description `Computes sum.`,
parameters `a`/`first` and `b`/`second` in order, and returns `total`. -/
theorem c6_scenario :
    kotlinStep c6Kdoc c6Anchor =
      some ("functions",
        { name := "add", description := "Computes sum.",
          parameters := [("a", "first"), ("b", "second")],
          returns := ["total"], throws := [], properties := [],
          see_also := [], samples := [] }) := rfl

/-- C7, counterexample: the block with a `Cases` subsection listing `red`
and `blue`, anchored at `case red`, yields exactly ONE `DocItem` (named
after the case name of the anchor), not two. -/
theorem c7_counterexample :
    (swiftParseFileItems "F.swift" c7Lines).length = 1 ∧
    (swiftParseFileItems "F.swift" c7Lines).length ≠ 2 := by
  refine ⟨rfl, by decide⟩

/-- C7, amended: the two case lines are parsed, in order, into the `cases`
list of the single entry appended to the `cases` bucket, and
`parse_file` emits one `DocItem` of kind `case` named after the case name of the anchor with the first block line as description; the parsed per-case
entries are not emitted as separate items. -/
theorem c7_amended_thm :
    ((swiftParseDict c7Lines).cases.map (fun db => dictGet db "cases")) =
      [some (.namedList [("red", "the red case"), ("blue", "the blue case")])] ∧
    (swiftParseFileItems "F.swift" c7Lines).map (fun it => (it.name, it.type)) =
      [(.str "red", "case")] ∧
    (swiftParseFileItems "F.swift" c7Lines).map DocItem.description =
      [.str "The color red."] := by
  refine ⟨rfl, rfl, rfl⟩

/-- C8: the XML method block of the scenario yields exactly one item, in
the methods bucket, named `Foo`, with summary `Does X`, the single
parameter `a` described `first`, and returns `a value`. -/
theorem c8_scenario :
    (dotnetParseBlocks [c8Block]).1.methods =
      [{ name := "Foo", summary := "Does X",
         parameters := [{ text := "first", attributes := [("name", "a")] }],
         returns := "a value", exceptions := [], remarks := "", example_ := "",
         type_params := [], see_also := [], inheritance := "", includes := [] }] ∧
    dotnetTotalItems (dotnetParseBlocks [c8Block]).1 = 1 ∧
    (dotnetParseBlocks [c8Block]).2 = [] := by
  refine ⟨rfl, rfl, rfl⟩

/-- C2, counterexample: `c2Content` yields N = 2 doc blocks of which
exactly one fails to parse as XML, yet `parse_file` returns 0 entries
(the well-formed block has the unrecognized root `foo`), not N - 1 = 1;
the malformed block produces the single diagnostic. -/
theorem c2_counterexample :
    (dotnetCollectBlocks c2Content).length = 2 ∧
    etFromstring "<foo></foo>" = some (.mk "foo" [] none []) ∧
    etFromstring "<class" = none ∧
    dotnetTotalItems (dotnetParseFile c2Content).1 = 0 ∧
    (dotnetParseFile c2Content).2.length = 1 ∧
    dotnetTotalItems (dotnetParseFile c2Content).1 ≠ 1 := by
  refine ⟨rfl, rfl, rfl, rfl, rfl, by decide⟩

/-- C3, counterexample: two XML files whose doc blocks sit in the same
anchor context (the identical following line) but have different block
contents land in different kind buckets — the XML dialect buckets by the
own root element of the block, not by classifying an anchor line. -/
theorem c3_counterexample :
    (dotnetParseFile c3ContentA).1.classes.length = 1 ∧
    (dotnetParseFile c3ContentA).1.methods.length = 0 ∧
    (dotnetParseFile c3ContentB).1.classes.length = 0 ∧
    (dotnetParseFile c3ContentB).1.methods.length = 1 := by
  refine ⟨rfl, rfl, rfl, rfl⟩

/-! ## Counting lemmas for the DotNet block loop -/

/-- A block that parses and whose root tag is dispatched on. -/
def blockYieldsItem (b : String) : Bool :=
  match etFromstring b with
  | some root => recognizedRootB root.tag
  | none => false

/-- A block that fails to parse as XML. -/
def blockFails (b : String) : Bool := (etFromstring b).isNone

theorem aux_addRoot_total (d : DotnetDocs) (root : XElem) :
    dotnetTotalItems (dotnetAddRoot d root) =
      dotnetTotalItems d + (if recognizedRootB root.tag then 1 else 0) := by
  unfold dotnetAddRoot recognizedRootB
  split_ifs with h1 h2 h3 h4 h5 h6 <;>
    simp_all [dotnetTotalItems] <;> omega

theorem aux_fold_total (bs : List String) :
    ∀ st : DotnetDocs × List String,
      dotnetTotalItems (bs.foldl dotnetProcessBlock st).1 =
        dotnetTotalItems st.1 + bs.countP blockYieldsItem := by
  induction bs with
  | nil => intro st; simp
  | cons b bs ih =>
    intro st
    rw [List.foldl_cons, List.countP_cons, ih]
    have hstep : dotnetTotalItems (dotnetProcessBlock st b).1 =
        dotnetTotalItems st.1 + (if blockYieldsItem b = true then 1 else 0) := by
      unfold dotnetProcessBlock blockYieldsItem
      cases h : etFromstring b with
      | none => simp
      | some root => simpa using aux_addRoot_total st.1 root
    rw [hstep]
    by_cases hb : blockYieldsItem b = true <;> simp [hb] <;> omega

theorem aux_fold_diags (bs : List String) :
    ∀ st : DotnetDocs × List String,
      (bs.foldl dotnetProcessBlock st).2.length = st.2.length + bs.countP blockFails := by
  induction bs with
  | nil => intro st; simp
  | cons b bs ih =>
    intro st
    rw [List.foldl_cons, List.countP_cons, ih]
    have hstep : (dotnetProcessBlock st b).2.length =
        st.2.length + (if blockFails b = true then 1 else 0) := by
      unfold dotnetProcessBlock blockFails
      cases h : etFromstring b <;> simp
    rw [hstep]
    by_cases hb : blockFails b = true <;> simp [hb] <;> omega

/-- C2, amended: when the remaining blocks are well-formed *with a
recognized root element* (class, method, property, enum, interface,
type), a file whose block list contains exactly one block that fails to
parse yields one entry per other block and exactly one diagnostic, and
processing never aborts (the loop is total and the blocks after the
malformed one are still counted). -/
theorem c2_amended_thm (g1 g2 : List String) (bad : String)
    (hbad : etFromstring bad = none)
    (hgood : ∀ b ∈ g1 ++ g2, blockYieldsItem b = true) :
    dotnetTotalItems (dotnetParseBlocks (g1 ++ bad :: g2)).1 = g1.length + g2.length ∧
    (dotnetParseBlocks (g1 ++ bad :: g2)).2.length = 1 := by
  have hbadY : blockYieldsItem bad = false := by
    unfold blockYieldsItem; rw [hbad]
  have hbadF : blockFails bad = true := by
    unfold blockFails; rw [hbad]; rfl
  have hgoodF : ∀ b ∈ g1 ++ g2, blockFails b = false := by
    intro b hb
    have := hgood b hb
    unfold blockYieldsItem at this
    unfold blockFails
    cases h : etFromstring b with
    | none => rw [h] at this; exact absurd this (by simp)
    | some root => rfl
  have c1 : (g1 ++ bad :: g2).countP blockYieldsItem = g1.length + g2.length := by
    rw [List.countP_append, List.countP_cons, hbadY]
    have e1 : g1.countP blockYieldsItem = g1.length :=
      List.countP_eq_length.mpr fun b hb => hgood b (List.mem_append_left _ hb)
    have e2 : g2.countP blockYieldsItem = g2.length :=
      List.countP_eq_length.mpr fun b hb => hgood b (List.mem_append_right _ hb)
    simp [e1, e2]
  have c2 : (g1 ++ bad :: g2).countP blockFails = 1 := by
    rw [List.countP_append, List.countP_cons, hbadF]
    have e1 : g1.countP blockFails = 0 :=
      List.countP_eq_zero.mpr fun b hb => by
        simp [hgoodF b (List.mem_append_left _ hb)]
    have e2 : g2.countP blockFails = 0 :=
      List.countP_eq_zero.mpr fun b hb => by
        simp [hgoodF b (List.mem_append_right _ hb)]
    simp [e1, e2]
  unfold dotnetParseBlocks
  rw [aux_fold_total, aux_fold_diags, c1, c2]
  refine ⟨?_, ?_⟩ <;> simp [dotnetTotalItems]

/-- C2, amended, witness: one good class block, the malformed block, one
good method block: 2 entries and 1 diagnostic. -/
theorem c2_amended_witness :
    dotnetTotalItems (dotnetParseBlocks
      (["<class name=\"A\"></class>"] ++ "<class" :: ["<method name=\"M\"></method>"])).1 = 2 ∧
    (dotnetParseBlocks
      (["<class name=\"A\"></class>"] ++ "<class" :: ["<method name=\"M\"></method>"])).2.length = 1 := by
  have h := c2_amended_thm ["<class name=\"A\"></class>"] ["<method name=\"M\"></method>"]
    "<class" rfl (by decide)
  exact ⟨h.1, h.2⟩

/-! ## Orphan-block lemmas (C1) -/

theorem aux_splitFirst_marker (body : List Char)
    (h : containsSub ['*', '/'] body = false) :
    splitFirstSub ['*', '/'] (body ++ ['*', '/']) = some (body, []) := by
  induction body with
  | nil => rfl
  | cons c body ih =>
    have h' : containsSub ['*', '/'] body = false := by
      unfold containsSub at h
      exact (Bool.or_eq_false_iff.mp h).2
    have hpre : startsWithL ['*', '/'] (c :: (body ++ ['*', '/'])) = false := by
      cases body with
      | nil => simp [startsWithL]
      | cons d body' =>
        have : startsWithL ['*', '/'] (c :: d :: body') = false :=
          (Bool.or_eq_false_iff.mp h).1
        simpa [startsWithL] using this
    show splitFirstSub ['*', '/'] (c :: (body ++ ['*', '/'])) = some (c :: body, [])
    rw [splitFirstSub, hpre]
    simp [ih h']

theorem aux_kotlinScan_nil (n : Nat) : kotlinScan n [] = [] := by
  cases n <;> rfl

theorem aux_kotlinDetect_nil : kotlinDetect [] = none := rfl

/-- Scanning a file that is exactly one doc block with nothing after the
closing marker yields one match whose code line is empty. -/
theorem aux_kotlinScan_orphan (body : List Char) (n : Nat)
    (h : containsSub ['*', '/'] body = false) :
    kotlinScan (n + 1) ('/' :: '*' :: '*' :: (body ++ ['*', '/'])) = [(body, [])] := by
  rw [kotlinScan]
  have hsw : startsWithL ['/', '*', '*'] ('/' :: '*' :: '*' :: (body ++ ['*', '/'])) = true := by
    simp [startsWithL]
  rw [if_pos hsw]
  have hdrop : ('/' :: '*' :: '*' :: (body ++ ['*', '/'])).drop 3 = body ++ ['*', '/'] := rfl
  rw [hdrop, aux_splitFirst_marker body h]
  simp [aux_kotlinScan_nil]

/-- C1 (Kotlin half, used by the amended theorem): a KDoc block at end of
file with no following code line produces no documentation at all. -/
theorem aux_kotlin_orphan (body : List Char)
    (h : containsSub ['*', '/'] body = false) :
    kotlinParseFile (String.mk ('/' :: '*' :: '*' :: (body ++ ['*', '/']))) = {} := by
  unfold kotlinParseFile
  have hlen : (String.mk ('/' :: '*' :: '*' :: (body ++ ['*', '/']))).data.length + 1 =
      (body.length + 5) + 1 := by
    simp [String.mk]
  rw [hlen]
  rw [show (String.mk ('/' :: '*' :: '*' :: (body ++ ['*', '/']))).data =
      '/' :: '*' :: '*' :: (body ++ ['*', '/']) from rfl]
  rw [aux_kotlinScan_orphan body _ h]
  simp [List.foldl, kotlinStep, aux_kotlinDetect_nil]

theorem aux_takeWhile_append_of_all {α : Type} (p : α → Bool) (l1 l2 : List α)
    (h : ∀ x ∈ l1, p x = true) :
    (l1 ++ l2).takeWhile p = l1 ++ l2.takeWhile p := by
  induction l1 with
  | nil => simp
  | cons a l1 ih =>
    have ha := h a (List.mem_cons_self a l1)
    simp [List.takeWhile_cons, ha, ih fun x hx => h x (List.mem_cons_of_mem a hx)]

theorem aux_dropWhile_append_of_all {α : Type} (p : α → Bool) (l1 l2 : List α)
    (h : ∀ x ∈ l1, p x = true) :
    (l1 ++ l2).dropWhile p = l2.dropWhile p := by
  induction l1 with
  | nil => simp
  | cons a l1 ih =>
    have ha := h a (List.mem_cons_self a l1)
    simp [List.dropWhile_cons, ha, ih fun x hx => h x (List.mem_cons_of_mem a hx)]

theorem aux_dropWhile_eq_nil_of_all {α : Type} (p : α → Bool) (l : List α)
    (h : ∀ x ∈ l, p x = true) : l.dropWhile p = [] := by
  induction l with
  | nil => simp
  | cons a l ih =>
    have ha := h a (List.mem_cons_self a l)
    simp [List.dropWhile_cons, ha, ih fun x hx => h x (List.mem_cons_of_mem a hx)]

/-- Swift scanning of blank lines only returns the documentation
unchanged. -/
theorem aux_swiftScan_blanks (fuel : Nat) :
    ∀ (bs : List String) (doc : SwiftDocs),
      (∀ l ∈ bs, stripChars l.data = []) →
      swiftScan fuel bs doc = doc := by
  induction fuel with
  | zero => intro bs doc _; rfl
  | succ n ih =>
    intro bs doc hb
    cases bs with
    | nil => rfl
    | cons l ls =>
      have hl : stripChars l.data = [] := hb l (List.mem_cons_self l ls)
      rw [swiftScan, hl]
      simp [startsWithL]
      exact ih ls doc fun x hx => hb x (List.mem_cons_of_mem l hx)

/-- C1 (Swift half, used by the amended theorem): a `///` run followed
only by blank lines up to end of file produces no documentation. -/
theorem aux_swift_orphan (ds bs : List String)
    (hds : ∀ l ∈ ds, startsWithL ['/', '/', '/'] (stripChars l.data) = true)
    (hbs : ∀ l ∈ bs, stripChars l.data = []) :
    swiftParseDict (ds ++ bs) = {} := by
  unfold swiftParseDict
  cases hf : (ds ++ bs).length + 1 with
  | zero => exact absurd hf (by omega)
  | succ n =>
    cases ds with
    | nil =>
      simp at hf
      exact aux_swiftScan_blanks (n + 1) bs {} hbs
    | cons d ds' =>
      rw [List.cons_append, swiftScan]
      have hd : startsWithL ['/', '/', '/'] (stripChars d.data) = true :=
        hds d (List.mem_cons_self d ds')
      rw [if_pos hd]
      have hds' : ∀ l ∈ ds', startsWithL ['/', '/', '/'] (stripChars l.data) = true :=
        fun l hl => hds l (List.mem_cons_of_mem d hl)
      have hbsp : ∀ l ∈ bs, startsWithL ['/', '/', '/'] (stripChars l.data) = false := by
        intro l hl
        rw [hbs l hl]
        rfl
      have hdw : (ds' ++ bs).dropWhile
          (fun l => startsWithL ['/', '/', '/'] (stripChars l.data)) = bs := by
        rw [aux_dropWhile_append_of_all _ ds' bs hds']
        cases bs with
        | nil => rfl
        | cons b bs' =>
          rw [List.dropWhile_cons, hbsp b (List.mem_cons_self b bs')]
          simp
      have hdw2 : (bs.dropWhile fun l => (stripChars l.data).isEmpty) = [] :=
        aux_dropWhile_eq_nil_of_all _ bs fun l hl => by rw [hbs l hl]; rfl
      simp only [hdw, hdw2]

/-- C1, amended: in the KDoc and slash dialects a doc block at end of
file with no following code line produces zero documentation items and no
error; in the XML dialect the anchor line is never consulted, so a
well-formed trailing block still yields its item
(see `c1_counterexample`). -/
theorem c1_amended_thm (body : List Char) (ds bs : List String)
    (hbody : containsSub ['*', '/'] body = false)
    (hds : ∀ l ∈ ds, startsWithL ['/', '/', '/'] (stripChars l.data) = true)
    (hbs : ∀ l ∈ bs, stripChars l.data = []) :
    kotlinParseFile (String.mk ('/' :: '*' :: '*' :: (body ++ ['*', '/']))) = {} ∧
    swiftParseDict (ds ++ bs) = {} :=
  ⟨aux_kotlin_orphan body hbody, aux_swift_orphan ds bs hds hbs⟩

/-- C1, amended, witness: a concrete orphaned block in each dialect. -/
theorem c1_amended_witness :
    kotlinParseFile (String.mk ('/' :: '*' :: '*' :: (" lonely ".data ++ ['*', '/']))) = {} ∧
    swiftParseDict (["/// lonely"] ++ ["", "   "]) = {} :=
  c1_amended_thm " lonely ".data ["/// lonely"] ["", "   "]
    (by decide) (by decide) (by decide)

/-! ## Bucket-determination lemmas (C3) -/

/-- The six Swift bucket lengths, in dict order. -/
def swiftBucketSizes (d : SwiftDocs) : List Nat :=
  [d.classes.length, d.functions.length, d.properties.length,
   d.enums.length, d.cases.length, d.types.length]

/-- The six DotNet bucket lengths, in dict order. -/
def dotnetBucketSizes (d : DotnetDocs) : List Nat :=
  [d.classes.length, d.methods.length, d.properties.length,
   d.enums.length, d.interfaces.length, d.types.length]

theorem aux_swiftAppend_sizes (doc : SwiftDocs) (k : String) (db db' : SDict) :
    swiftBucketSizes (swiftAppend doc k db) = swiftBucketSizes (swiftAppend doc k db') := by
  unfold swiftAppend
  split_ifs <;> simp [swiftBucketSizes]

/-- C3, amended: in the KDoc and slash dialects the kind bucket of an
item is a function of the anchor line alone — changing the comment block
while keeping the anchor never changes the chosen bucket — while in the
XML dialect the bucket is chosen by the root element tag of the block itself and
no anchor line is consulted (two roots with the same tag touch the same
buckets regardless of their contents; see `c3_counterexample` for the
converse direction). -/
theorem c3_amended_thm (k k' c t t' : List Char) (doc : SwiftDocs) (d : DotnetDocs)
    (tg : String) (a a' : List (String × String)) (tx tx' : Option String)
    (ch ch' : List XElem) :
    (kotlinStep k c).map Prod.fst = (kotlinStep k' c).map Prod.fst ∧
    swiftBucketSizes (swiftProcessDocBlock t c doc) =
      swiftBucketSizes (swiftProcessDocBlock t' c doc) ∧
    dotnetBucketSizes (dotnetAddRoot d (XElem.mk tg a tx ch)) =
      dotnetBucketSizes (dotnetAddRoot d (XElem.mk tg a' tx' ch')) := by
  refine ⟨?_, ?_, ?_⟩
  · unfold kotlinStep
    cases hd : kotlinDetect c <;> simp
  · unfold swiftProcessDocBlock
    cases hd : swiftDetect c with
    | none => rfl
    | some p =>
      obtain ⟨et, n⟩ := p
      simp only
      apply aux_swiftAppend_sizes
  · unfold dotnetAddRoot
    simp only [XElem.tag]
    split_ifs <;> simp [dotnetBucketSizes]

/-! ## Tag-capture lemmas (C5) -/

theorem aux_pySplit_ne_nil (sep : Char) : ∀ l : List Char, pySplitChar sep l ≠ [] := by
  intro l
  induction l with
  | nil => simp [pySplitChar]
  | cons c cs ih =>
    rw [pySplitChar]
    split_ifs
    · simp
    · cases h : pySplitChar sep cs with
      | nil => simp
      | cons h t => simp

/-- The first piece of Python `split(sep)` is exactly the text before the
first separator. -/
theorem aux_pySplit_head (sep : Char) : ∀ l : List Char,
    (pySplitChar sep l).headD [] = l.takeWhile (fun c => c ≠ sep) := by
  intro l
  induction l with
  | nil => rfl
  | cons c cs ih =>
    rw [pySplitChar]
    split_ifs with hc
    · simp [List.takeWhile_cons, hc]
    · obtain ⟨h, t, he⟩ := List.exists_cons_of_ne_nil (aux_pySplit_ne_nil sep cs)
      rw [he]
      rw [he] at ih
      simp only [List.headD_cons] at ih
      simp [List.takeWhile_cons, hc, ih]

theorem aux_mem_takeWhile {p : Char → Bool} {a : Char} :
    ∀ {l : List Char}, a ∈ l.takeWhile p → p a = true := by
  intro l
  induction l with
  | nil => intro h; simp at h
  | cons c cs ih =>
    intro h
    rw [List.takeWhile_cons] at h
    by_cases hc : p c = true
    · rw [if_pos hc] at h
      rcases List.mem_cons.mp h with h | h
      · rw [h]; exact hc
      · exact ih h
    · rw [if_neg hc] at h; simp at h

theorem aux_matchNamed_noAt (header cs nm t rest : List Char)
    (h : matchNamedTagAt header cs = some (nm, t, rest)) : ('@' : Char) ∉ t := by
  simp only [matchNamedTagAt] at h
  split_ifs at h <;> simp_all
  obtain ⟨-, ht, -⟩ := h
  intro hm
  rw [← ht] at hm
  have := aux_mem_takeWhile hm
  simp at this

theorem aux_matchText_noAt (header cs t rest : List Char)
    (h : matchTextTagAt header cs = some (t, rest)) : ('@' : Char) ∉ t := by
  simp only [matchTextTagAt] at h
  split_ifs at h <;> simp_all
  obtain ⟨ht, -⟩ := h
  intro hm
  rw [← ht] at hm
  have := aux_mem_takeWhile hm
  simp at this

theorem aux_findNamedTag_noAt (header : List Char) :
    ∀ (fuel : Nat) (cs : List Char) (p : List Char × List Char),
      p ∈ findNamedTag header fuel cs → ('@' : Char) ∉ p.2 := by
  intro fuel
  induction fuel with
  | zero => intro cs p hp; simp [findNamedTag] at hp
  | succ n ih =>
    intro cs p hp
    cases cs with
    | nil => simp [findNamedTag] at hp
    | cons c cs =>
      rw [findNamedTag] at hp
      cases hm : matchNamedTagAt header (c :: cs) with
      | none =>
        rw [hm] at hp
        exact ih cs p hp
      | some res =>
        obtain ⟨nm, t, rest⟩ := res
        rw [hm] at hp
        have hp' : p ∈ (nm, t) :: findNamedTag header n rest := hp
        rcases List.mem_cons.mp hp' with h | h
        · have h2 : p.2 = t := by rw [h]
          rw [h2]
          exact aux_matchNamed_noAt header (c :: cs) nm t rest hm
        · exact ih rest p h

theorem aux_findTextTag_noAt (header : List Char) :
    ∀ (fuel : Nat) (cs : List Char) (t : List Char),
      t ∈ findTextTag header fuel cs → ('@' : Char) ∉ t := by
  intro fuel
  induction fuel with
  | zero => intro cs t ht; simp [findTextTag] at ht
  | succ n ih =>
    intro cs t ht
    cases cs with
    | nil => simp [findTextTag] at ht
    | cons c cs =>
      rw [findTextTag] at ht
      cases hm : matchTextTagAt header (c :: cs) with
      | none =>
        rw [hm] at ht
        exact ih cs t ht
      | some res =>
        obtain ⟨t0, rest⟩ := res
        rw [hm] at ht
        have ht' : t ∈ t0 :: findTextTag header n rest := ht
        rcases List.mem_cons.mp ht' with h | h
        · rw [h]
          exact aux_matchText_noAt header (c :: cs) t0 rest hm
        · exact ih rest t h

/-- C5, amended: in the KDoc dialect the captured text of each recognized tag
extends until the next `@` character — whether or not it begins a
recognized tag — or the end of the block (the raw capture never contains
`@`), and the description region is exactly the text preceding the first
`@` character (`split('@')[0]`). -/
theorem c5_amended_thm (kdoc : List Char) :
    (pySplitChar '@' kdoc).headD [] = kdoc.takeWhile (fun c => c ≠ '@') ∧
    (∀ p ∈ kotlinFindParamsL kdoc, ('@' : Char) ∉ p.2) ∧
    (∀ t ∈ kotlinFindReturnL kdoc, ('@' : Char) ∉ t) := by
  refine ⟨aux_pySplit_head '@' kdoc, ?_, ?_⟩
  · intro p hp
    exact aux_findNamedTag_noAt _ _ _ p hp
  · intro t ht
    exact aux_findTextTag_noAt _ _ _ t ht

/-- C5, amended, witness: the description region of `c5Kdoc` is the text
before its first `@`, and the captured text of the `@param` in `c5Kdoc2`
contains no `@`. -/
theorem c5_amended_witness :
    (pySplitChar '@' c5Kdoc).headD [] = c5Kdoc.takeWhile (fun c => c ≠ '@') ∧
    ('@' : Char) ∉ ((kotlinFindParamsL c5Kdoc2).headD ([], [])).2 :=
  ⟨(c5_amended_thm c5Kdoc).1,
   (c5_amended_thm c5Kdoc2).2.1 ((kotlinFindParamsL c5Kdoc2).headD ([], [])) (by decide)⟩

/-! ## The params/parameters key mismatch (C9) -/

theorem aux_dictGet_none_iff_not_has (d : SDict) (k : String) :
    dictGet d k = none ↔ dictHas d k = false := by
  unfold dictGet dictHas
  cases d.find? (fun p => p.1 == k) <;> simp

theorem aux_dictGet_append_ne (d : SDict) (k k' : String) (v : DVal) (h : (k' == k) = false) :
    dictGet (d ++ [(k, v)]) k' = dictGet d k' := by
  induction d with
  | nil =>
    unfold dictGet
    simp [List.find?, BEq.symm_false h]
  | cons p d ih =>
    unfold dictGet at ih ⊢
    rw [List.cons_append]
    simp only [List.find?]
    cases hp : p.1 == k' with
    | true => rfl
    | false => exact ih

theorem aux_dictGet_mapSet_ne (d : SDict) (k k' : String) (v : DVal) (h : (k' == k) = false) :
    dictGet (d.map (fun p => if p.1 == k then (k, v) else p)) k' = dictGet d k' := by
  induction d with
  | nil => rfl
  | cons p d ih =>
    unfold dictGet at ih ⊢
    simp only [List.map_cons, List.find?]
    by_cases hp : (p.1 == k) = true
    · rw [if_pos hp]
      have hk : (k == k') = false := BEq.symm_false h
      have hp1 : (p.1 == k') = false := by
        rw [eq_of_beq hp]
        exact hk
      simp only [List.find?, hk, hp1]
      exact ih
    · rw [if_neg hp]
      cases hq : p.1 == k' with
      | true => rfl
      | false => exact ih

theorem aux_dictGet_set_ne (d : SDict) (k k' : String) (v : DVal) (h : (k' == k) = false) :
    dictGet (dictSet d k v) k' = dictGet d k' := by
  unfold dictSet
  split_ifs
  · exact aux_dictGet_mapSet_ne d k k' v h
  · exact aux_dictGet_append_ne d k k' v h

/-- The params key is never present in a block dict: preserved by any
`dictSet` on another key. -/
def PNone (d : SDict) : Prop := dictGet d "params" = none

theorem aux_pnone_set (d : SDict) (k : String) (v : DVal)
    (hk : ("params" == k) = false) (h : PNone d) : PNone (dictSet d k v) := by
  unfold PNone at h ⊢
  rw [aux_dictGet_set_ne d k "params" v hk]
  exact h

theorem aux_pnone_appendNamed (d : SDict) (k : String) (nv : String × String)
    (h : PNone d) : PNone (appendNamed d k nv) := by
  unfold appendNamed
  by_cases hk : ("params" == k) = true
  · have : k = "params" := (eq_of_beq hk).symm
    subst this
    unfold PNone at h
    rw [h]
    exact h
  · cases hg : dictGet d k with
    | none => exact h
    | some v =>
      cases v <;> try exact h
      exact aux_pnone_set d k _ (by simpa using hk) h

theorem aux_pnone_appendTextIfKey (d : SDict) (k : String) (t : String)
    (h : PNone d) : PNone (appendTextIfKey d k t) := by
  unfold appendTextIfKey
  by_cases hk : ("params" == k) = true
  · have : k = "params" := (eq_of_beq hk).symm
    subst this
    have : dictHas d "params" = false := (aux_dictGet_none_iff_not_has d "params").mp h
    rw [this]
    simp only [Bool.false_eq_true, if_false]
    exact h
  · split_ifs with hh
    · cases hg : dictGet d k with
      | none => exact h
      | some v =>
        cases v <;> try exact h
        exact aux_pnone_set d k _ (by simpa using hk) h
    · exact h

theorem aux_foldl_preserve {α β : Type} (P : α → Prop) (f : α → β → α)
    (hf : ∀ a b, P a → P (f a b)) : ∀ (l : List β) (a : α), P a → P (l.foldl f a) := by
  intro l
  induction l with
  | nil => intro a h; exact h
  | cons b l ih => intro a h; exact ih (f a b) (hf a b h)

theorem aux_pnone_tagAction (tag : String) (d : SDict) (content : List Char)
    (h : PNone d) : PNone (swiftTagAction tag d content) := by
  simp only [swiftTagAction]
  split_ifs
  · exact aux_foldl_preserve PNone _ (fun d nv h => aux_pnone_appendNamed d _ nv h) _ d h
  · cases hm : matchCaseContent (stripChars content) with
    | none => exact h
    | some nv => exact aux_pnone_appendNamed d _ nv h
  · exact aux_pnone_appendTextIfKey d _ _ h

theorem aux_pnone_parseTags (t : List Char) (d : SDict) (h : PNone d) :
    PNone (swiftParseTags t d) := by
  unfold swiftParseTags
  apply aux_foldl_preserve PNone _ _ _ d h
  intro d spec hd
  exact aux_foldl_preserve PNone _ (fun d cap h => aux_pnone_tagAction spec.1 d cap h) _ d hd

theorem aux_pnone_sectionAction (full : Bool) (d : SDict) (sec : List Char)
    (h : PNone d) : PNone (swiftSectionAction full d sec) := by
  simp only [swiftSectionAction]
  split_ifs with h0
  · exact h
  · cases hs : splitFirstNL sec with
    | none => exact h
    | some tc =>
      obtain ⟨title, content⟩ := tc
      simp only
      split_ifs <;>
        first
          | exact h
          | exact aux_pnone_set d "examples" _ (by decide) h
          | exact aux_foldl_preserve PNone _
              (fun d nv h => aux_pnone_appendNamed d _ nv h) _ d h
          | exact aux_foldl_preserve PNone _
              (fun d line h => by
                cases hm : matchCaseLine line with
                | none => exact h
                | some nv => exact aux_pnone_appendNamed d _ nv h) _ d h

theorem aux_pnone_init : PNone swiftInitDict := rfl

theorem aux_pnone_parseDocBlock (t : List Char) : PNone (swiftParseDocBlock t) := by
  unfold swiftParseDocBlock
  apply aux_foldl_preserve PNone _ (fun d sec h => aux_pnone_sectionAction true d sec h)
  split_ifs
  · exact aux_pnone_parseTags _ _ (aux_pnone_set _ _ _ (by decide) aux_pnone_init)
  · exact aux_pnone_set _ _ _ (by decide) aux_pnone_init

/-- All blocks of all buckets. -/
def swiftAllBlocks (d : SwiftDocs) : List SDict :=
  d.classes ++ d.functions ++ d.properties ++ d.enums ++ d.cases ++ d.types

/-- Every stored block satisfies `PNone`. -/
def DocsP (d : SwiftDocs) : Prop := ∀ db ∈ swiftAllBlocks d, PNone db

theorem aux_mem_swiftAppend (doc : SwiftDocs) (k : String) (db db' : SDict)
    (h : db' ∈ swiftAllBlocks (swiftAppend doc k db)) :
    db' ∈ swiftAllBlocks doc ∨ db' = db := by
  unfold swiftAppend at h
  unfold swiftAllBlocks at h ⊢
  split_ifs at h <;> simp only [List.mem_append, List.mem_cons, List.not_mem_nil,
    or_false] at h ⊢ <;> tauto

theorem aux_docsP_append (doc : SwiftDocs) (k : String) (db : SDict)
    (hdoc : DocsP doc) (hdb : PNone db) : DocsP (swiftAppend doc k db) := by
  intro db' h'
  rcases aux_mem_swiftAppend doc k db db' h' with h' | h'
  · exact hdoc db' h'
  · rw [h']; exact hdb

theorem aux_pnone_caseDescription (docText : List Char) (db : SDict)
    (h : PNone db) : PNone (swiftCaseDescription docText db) := by
  unfold swiftCaseDescription
  cases firstNonEmptyLine (swiftClean docText) with
  | none => exact h
  | some l => exact aux_pnone_set _ _ _ (by decide) h

theorem aux_pnone_richDescription (docText : List Char) (db : SDict)
    (h : PNone db) : PNone (swiftRichDescription docText db) := by
  unfold swiftRichDescription
  apply aux_foldl_preserve PNone _ (fun d sec h => aux_pnone_sectionAction false d sec h)
  exact aux_pnone_set _ _ _ (by decide) h

theorem aux_pnone_processEntry (docText codeLine : List Char) (doc : SwiftDocs)
    (h : DocsP doc) : DocsP (swiftProcessDocBlock docText codeLine doc) := by
  unfold swiftProcessDocBlock
  cases hd : swiftDetect codeLine with
  | none => exact h
  | some p =>
    obtain ⟨et, n⟩ := p
    simp only
    apply aux_docsP_append _ _ _ h
    have h1 : PNone (dictSet (swiftParseDocBlock docText) "name" (.str n)) :=
      aux_pnone_set _ _ _ (by decide) (aux_pnone_parseDocBlock docText)
    have h2 : PNone (if et = "case" then
        swiftCaseDescription docText (dictSet (swiftParseDocBlock docText) "name" (.str n))
      else dictSet (swiftParseDocBlock docText) "name" (.str n)) := by
      split_ifs
      · exact aux_pnone_caseDescription docText _ h1
      · exact h1
    split_ifs at h2 ⊢ <;>
      first
        | exact aux_pnone_richDescription docText _ h2
        | exact h2

theorem aux_docsP_scan (fuel : Nat) :
    ∀ (lines : List String) (doc : SwiftDocs),
      DocsP doc → DocsP (swiftScan fuel lines doc) := by
  induction fuel with
  | zero => intro lines doc h; exact h
  | succ n ih =>
    intro lines doc h
    cases lines with
    | nil => exact h
    | cons line rest =>
      rw [swiftScan]
      split_ifs
      · cases hr : (rest.dropWhile fun l =>
            startsWithL ['/', '/', '/'] (stripChars l.data)).dropWhile
            (fun l => (stripChars l.data).isEmpty) with
        | nil => simp only [hr]; exact h
        | cons codeLine rest3 =>
          simp only [hr]
          apply ih
          split_ifs
          · exact aux_pnone_processEntry _ _ _ h
          · exact h
      · cases hr : (collectUntilClose rest).2.dropWhile
            (fun l => (stripChars l.data).isEmpty) with
        | nil => simp only [hr]; exact h
        | cons codeLine rest3 =>
          simp only [hr]
          exact ih _ _ (aux_pnone_processEntry _ _ _ h)
      · exact ih _ _ h

/-- C9: every `DocItem` produced by `SwiftParser.parse_file` has the
empty-dict `params` — the block parser stores parameter entries under the
key `parameters`, while `DocItem` construction reads the key `params`,
which is never present, so the `get` default applies even when the doc
block declares parameters. -/
theorem c9_params_always_empty (path content : String) :
    ∀ item ∈ swiftParseFile path content, item.params = DVal.emptyDict := by
  intro item hitem
  unfold swiftParseFile swiftParseFileItems at hitem
  have hP : DocsP (swiftParseDict ((pySplitChar '\n' content.data).map String.mk)) := by
    unfold swiftParseDict
    apply aux_docsP_scan
    intro db hdb
    simp [swiftAllBlocks] at hdb
  simp only [List.mem_append, List.mem_map] at hitem
  have hget : ∀ (sec : String) (db : SDict), PNone db →
      (convertItem path sec db).params = DVal.emptyDict := by
    intro sec db hdb
    unfold convertItem
    simp only
    unfold PNone at hdb
    rw [hdb]
    rfl
  rcases hitem with ((((⟨db, hdb, he⟩ | ⟨db, hdb, he⟩) | ⟨db, hdb, he⟩) | ⟨db, hdb, he⟩)
      | ⟨db, hdb, he⟩) | ⟨db, hdb, he⟩ <;>
    rw [← he] <;>
    exact hget _ db (hP db (by unfold swiftAllBlocks; simp [hdb]))

/-- C9, witness: the item of `c9Lines` — whose block declares a parameter
through a `## Parameters` subsection — still carries the empty `params`. -/
theorem c9_witness :
    ((swiftParseFile "F.swift" "/// Adds.\n/// ## Parameters\n/// - x: the x\nfunc add(x: Int)").headD
      (convertItem "F.swift" "classes" [])).params = DVal.emptyDict := by
  have h := c9_params_always_empty "F.swift"
    "/// Adds.\n/// ## Parameters\n/// - x: the x\nfunc add(x: Int)"
  exact h _ (by decide)

/-! ## Generic classes land in the unmapped types bucket (C10) -/

/-- C10: a code line matched by the generic-class pre-check is detected as
element type `type`, processing appends its block to the `types` bucket,
and the bucket-to-kind conversion has no case for `types`, so the emitted
`DocItem` has type `unknown`. -/
theorem c10_generic_class_unknown (codeLine : List Char) (n : String)
    (h : swiftDetectGeneric codeLine = some n) :
    swiftDetect codeLine = some ("type", n) ∧
    (∀ (docText : List Char) (doc : SwiftDocs),
      (swiftProcessDocBlock docText codeLine doc).types.length = doc.types.length + 1) ∧
    (∀ (path : String) (db : SDict), (convertItem path "types" db).type = "unknown") := by
  have h1 : swiftDetect codeLine = some ("type", n) := by
    unfold swiftDetect
    rw [h]
  refine ⟨h1, ?_, ?_⟩
  · intro docText doc
    unfold swiftProcessDocBlock
    rw [h1]
    simp [swiftPluralOf, swiftAppend]
  · intro path db
    simp [convertItem, sectionItemType]

/-- C10, witness: the documented generic class `class Stack<T>`. -/
theorem c10_witness :
    swiftDetect "class Stack<T>".data = some ("type", "Stack") ∧
    (swiftProcessDocBlock "/// A stack.".data "class Stack<T>".data {}).types.length = 1 ∧
    (convertItem "F.swift" "types" []).type = "unknown" := by
  have h := c10_generic_class_unknown "class Stack<T>".data "Stack" rfl
  exact ⟨h.1, h.2.1 "/// A stack.".data {}, h.2.2 "F.swift" []⟩

end TheDoc
